import Mathlib

/-!
Verification development for the get-llvm GitHub action.

The development shallowly embeds the decision-making core of the repository:

* `releases-collector.ts` (the catalog builder: `ReleasesCollector.track`,
  `ReleasesCollector.versionSelectors`, `getArchitecturePlatform`);
* `get-llvm.ts` (the orchestrator `ToolsGetter.get`, the version resolver
  `ToolsGetter.matchRange`, the key encoder
  `ToolsGetter.convertHashToFakeSemver`, the archive name builder
  `getArchiveFileName`, and the save-error policy of `ToolsGetter.saveCache`).

External collaborators (the node-semver library, the @actions/cache and
@actions/tool-cache services, the network downloader) are modelled at their
interface: semantic versions are explicit structures with the standard
semver precedence order, version parsing and range satisfaction are
parameters of the theorems, and the cache services are oracles whose answers
are inputs of the orchestrator model.  JavaScript objects used as string-keyed
dictionaries are modelled as functions into `Option`, JavaScript `Map`s
likewise; a missing key is `none`.
-/

namespace GetLlvm

/-! ## Model of the external node-semver library

A parsed semantic version: numeric core plus the dot-separated prerelease
identifier list.  Build metadata is ignored by node-semver comparison and by
`SemVer.version` rendering, so it is not modelled.  A prerelease identifier
consisting only of digits is numeric, otherwise alphanumeric. -/

inductive PreId where
  | num (n : Nat)
  | str (s : String)
deriving DecidableEq, Repr

structure SemVer where
  major : Nat
  minor : Nat
  patch : Nat
  prerelease : List PreId
deriving DecidableEq, Repr

def PreId.render : PreId → String
  | .num n => toString n
  | .str s => s

/-- Rendering of the `version` property of a node-semver `SemVer` object:
`major.minor.patch` followed by `-id1.id2...` when a prerelease is present. -/
def SemVer.render (v : SemVer) : String :=
  toString v.major ++ "." ++ toString v.minor ++ "." ++ toString v.patch ++
    (match v.prerelease with
     | [] => ""
     | ids => "-" ++ String.intercalate "." (ids.map PreId.render))

/-- Character comparison by code point, as node-semver ASCII comparison. -/
def charCmp (c d : Char) : Ordering := compare c.toNat d.toNat

/-- Lexicographic comparison of lists; a strict prefix is smaller. -/
def compareList (f : α → α → Ordering) : List α → List α → Ordering
  | [], [] => .eq
  | [], _ :: _ => .lt
  | _ :: _, [] => .gt
  | x :: xs, y :: ys => (f x y).then (compareList f xs ys)

def strCmp (s t : String) : Ordering := compareList charCmp s.data t.data

/-- Prerelease identifier precedence: numeric identifiers are below
alphanumeric identifiers, numeric compare numerically, alphanumeric compare
in code-point order. -/
def PreId.cmp : PreId → PreId → Ordering
  | .num m, .num n => compare m n
  | .num _, .str _ => .lt
  | .str _, .num _ => .gt
  | .str s, .str t => strCmp s t

/-- Prerelease list precedence: a version without prerelease identifiers is
above any version with them; otherwise identifier lists compare
lexicographically, a strict prefix being smaller. -/
def SemVer.cmpPre : List PreId → List PreId → Ordering
  | [], [] => .eq
  | [], _ :: _ => .gt
  | _ :: _, [] => .lt
  | x :: xs, y :: ys => (PreId.cmp x y).then (SemVer.cmpPre xs ys)

def preCmp (a b : SemVer) : Ordering := SemVer.cmpPre a.prerelease b.prerelease

/-- The node-semver total precedence order `semver.compare`, presented as an
`Ordering`: major, minor, patch, then prerelease identifiers. -/
def SemVer.cmp : SemVer → SemVer → Ordering :=
  compareLex (compareOn SemVer.major)
    (compareLex (compareOn SemVer.minor)
      (compareLex (compareOn SemVer.patch) preCmp))

/-! ## Embedding of releases-collector.ts -/

/-- The `PackageInfo` interface of releases-collector.ts.  The optional
`fileName` field is always assigned by `track`, so it is kept plain. -/
structure PackageInfo where
  url : String
  fileName : String
  binPath : String
  dropSuffix : String
deriving DecidableEq, Repr

structure ReleaseFilter where
  buildType : String
  targetTriple : String
  suffix : String
  binPath : String
  dropSuffix : String
  platform : String
deriving DecidableEq, Repr

structure Asset where
  name : String
  browser_download_url : String
  tag_name : String
deriving DecidableEq, Repr

structure VersionSelector where
  releaseKey : String
  prereleaseAccepted : Bool
deriving DecidableEq, Repr

/-- The function `getArchitecturePlatform` of releases-collector.ts, with the
ambient `process.platform` and `process.arch` made explicit parameters. -/
def getArchitecturePlatform (platform arch : String) : String :=
  if platform = "linux" ∧ arch = "arm64" then "linux-arm64"
  else if platform = "win32" ∧ arch = "arm64" then "win32-arm64"
  else platform

/-- Model of the JavaScript string method `trim`: strip whitespace from both
ends. -/
def jsTrim (s : String) : String :=
  ⟨((s.data.dropWhile Char.isWhitespace).reverse.dropWhile
    Char.isWhitespace).reverse⟩

/-- Model of the JavaScript string method `toLowerCase` on the ASCII range. -/
def jsToLower (s : String) : String := ⟨s.data.map Char.toLower⟩

/-- Model of the JavaScript string method `endsWith`. -/
def jsEndsWith (s suffix : String) : Bool :=
  List.isSuffixOf suffix.data s.data

/-- A JavaScript object used as a platform-keyed dictionary of `PackageInfo`. -/
def PlatMap : Type := String → Option PackageInfo

/-- The `CatalogType` of releases-collector.ts: version key to platform map. -/
def CatalogType : Type := String → Option PlatMap

/-- The inner `Map<string, MostRecentVersion>`; `MostRecentVersion` is a record
whose single field may be null, hence the nested `Option`. -/
def MRInner : Type := String → Option (Option SemVer)

/-- The `MostRecentReleases` map of releases-collector.ts. -/
def MostRecentReleases : Type := String → Option MRInner

/-- Pointwise update of a string-keyed dictionary. -/
def updFun {β : Type} (m : String → β) (k : String) (v : β) : String → β :=
  fun q => if q = k then v else m q

/-- The two owned dictionaries of a `ReleasesCollector` instance. -/
structure CollectorState where
  map : CatalogType
  mostRecentReleases : MostRecentReleases

def emptyState : CollectorState :=
  { map := fun _ => none, mostRecentReleases := fun _ => none }

/-- Catalog lookup `map[k][p]`, `none` when either level is missing. -/
def catLookup (s : CollectorState) (k p : String) : Option PackageInfo :=
  match s.map k with
  | none => none
  | some m => m p

/-- Most-recent lookup `mostRecentReleases.get(k)?.get(p)`. -/
def mrLookup (s : CollectorState) (k p : String) : Option (Option SemVer) :=
  match s.mostRecentReleases k with
  | none => none
  | some m => m p

/-- The check `((version.prerelease?.length ?? 0) > 0)` of track. -/
def isPrerelease (v : SemVer) : Bool := v.prerelease.length > 0

/-- The artifact reference object literal constructed by `track`. -/
def mkRelease (a : Asset) (f : ReleaseFilter) : PackageInfo :=
  { url := a.browser_download_url
    fileName := a.name
    binPath := f.binPath
    dropSuffix := f.dropSuffix }

namespace ReleasesCollector

/-- The static field `ReleasesCollector.versionSelectors`. -/
def versionSelectors : List VersionSelector :=
  [ { releaseKey := "latest", prereleaseAccepted := false },
    { releaseKey := "latestrc", prereleaseAccepted := true } ]

/-- One iteration of the selector loop of `track`, for one selector `key`,
after the artifact of version `version` has been inserted for platform `p`.
It first ensures the outer most-recent map has an entry for the selector,
then updates the most-recent entry and mirrors the catalog entry when the
guard holds. -/
def trackSelector (version : SemVer) (p : String) (s : CollectorState)
    (key : VersionSelector) : CollectorState :=
  let mr1 : MostRecentReleases :=
    match s.mostRecentReleases key.releaseKey with
    | some _ => s.mostRecentReleases
    | none => updFun s.mostRecentReleases key.releaseKey (some (fun _ => none))
  let latest : Option (Option SemVer) :=
    match mr1 key.releaseKey with
    | none => none
    | some m => m p
  let cond : Bool :=
    (key.prereleaseAccepted == isPrerelease version) &&
      (match latest with
       | none => true
       | some none => false
       | some (some r) => !(SemVer.cmp version r == Ordering.lt))
  if cond then
    let mr2 : MostRecentReleases :=
      match mr1 key.releaseKey with
      | none => mr1
      | some m => updFun mr1 key.releaseKey (some (updFun m p (some (some version))))
    let cm : PlatMap :=
      match s.map key.releaseKey with
      | some m => m
      | none => fun _ => none
    let mirrorVal : Option PackageInfo :=
      match s.map version.render with
      | none => none
      | some m => m p
    { map := updFun s.map key.releaseKey (some (updFun cm p mirrorVal))
      mostRecentReleases := mr2 }
  else
    { s with mostRecentReleases := mr1 }

/-- The artifact insertion of `track`: ensure the object at the version key
exists, then assign the artifact reference at the platform key. -/
def insertArtifact (a : Asset) (f : ReleaseFilter) (version : SemVer)
    (s : CollectorState) : CollectorState :=
  let pm : PlatMap :=
    match s.map version.render with
    | some m => m
    | none => fun _ => none
  { s with
    map := updFun s.map version.render
      (some (updFun pm f.platform (some (mkRelease a f)))) }

/-- The body of the filter loop of `track` for one asset and one filter:
suffix test, tag parse (the composite `semver.parse || semver.coerce` is the
parameter `parse`), insertion of the artifact reference at the version key,
then the selector loop. -/
def trackFilter (parse : String → Option SemVer) (a : Asset)
    (s : CollectorState) (f : ReleaseFilter) : CollectorState :=
  if jsEndsWith (jsToLower (jsTrim a.name)) (jsToLower f.suffix) then
    match parse a.tag_name with
    | none => s
    | some version =>
      versionSelectors.foldl (trackSelector version f.platform)
        (insertArtifact a f version s)
  else s

/-- The method `ReleasesCollector.track`: every asset against every filter in
declaration order, threading the owned state. -/
def track (parse : String → Option SemVer) (filters : List ReleaseFilter)
    (assets : List Asset) (s : CollectorState) : CollectorState :=
  assets.foldl (fun st a => filters.foldl (trackFilter parse a) st) s

/-- Processing order of track flattened to (asset, filter) pairs. -/
def pairsOf (assets : List Asset) (filters : List ReleaseFilter) :
    List (Asset × ReleaseFilter) :=
  assets.flatMap (fun a => filters.map (fun f => (a, f)))

/-- One flattened step of track. -/
def trackPair (parse : String → Option SemVer) (s : CollectorState)
    (af : Asset × ReleaseFilter) : CollectorState :=
  trackFilter parse af.1 s af.2

end ReleasesCollector

/-- The update guard of the selector loop of `track`, as a proposition on the
state before the loop iteration: the prerelease-acceptance class of the
selector matches that of the observed version, and either nothing is
recorded yet for the selector and platform or the observed version is
greater than or equal to the recorded one. -/
def selectorGuard (version : SemVer) (p : String) (s : CollectorState)
    (key : VersionSelector) : Prop :=
  key.prereleaseAccepted = isPrerelease version ∧
    (mrLookup s key.releaseKey p = none ∨
      ∃ r, mrLookup s key.releaseKey p = some (some r) ∧
        SemVer.cmp version r ≠ .lt)

/-- The suffix test of the filter loop, as a proposition. -/
def FilterMatches (f : ReleaseFilter) (a : Asset) : Prop :=
  jsEndsWith (jsToLower (jsTrim a.name)) (jsToLower f.suffix) = true

instance (f : ReleaseFilter) (a : Asset) : Decidable (FilterMatches f a) :=
  inferInstanceAs (Decidable (_ = true))

/-- A version `w` was observed for platform `p` in prerelease class `pre`
while processing the listed (asset, filter) pairs. -/
def ObservedIn (parse : String → Option SemVer)
    (l : List (Asset × ReleaseFilter)) (p : String) (pre : Bool)
    (w : SemVer) : Prop :=
  ∃ af ∈ l, FilterMatches af.2 af.1 ∧ af.2.platform = p ∧
    parse af.1.tag_name = some w ∧ isPrerelease w = pre

/-- The artifact reference `a` is the reference of some processed asset whose
tag parsed to a version of prerelease class `pre` for platform `p`. -/
def ProvenanceIn (parse : String → Option SemVer)
    (l : List (Asset × ReleaseFilter)) (p : String) (pre : Bool)
    (a : PackageInfo) : Prop :=
  ∃ af ∈ l, FilterMatches af.2 af.1 ∧ af.2.platform = p ∧
    (∃ w, parse af.1.tag_name = some w ∧ isPrerelease w = pre ∧
      a = mkRelease af.1 af.2)

/-- The tracking invariant of the catalog builder, for one selector, one
platform and one processed prefix of (asset, filter) pairs: a recorded
most-recent entry is a version of the selector prerelease class, was
observed, and is maximal among the observed versions of the class; an
in-class observation forces a recorded entry; a mirrored catalog entry under
the selector key is the artifact reference of some observed in-class
asset. -/
def SelInvAt (parse : String → Option SemVer)
    (l : List (Asset × ReleaseFilter)) (sel : VersionSelector)
    (s : CollectorState) (p : String) : Prop :=
  (∀ x, mrLookup s sel.releaseKey p = some x →
    ∃ v, x = some v ∧ isPrerelease v = sel.prereleaseAccepted ∧
      ObservedIn parse l p sel.prereleaseAccepted v ∧
      ∀ w, ObservedIn parse l p sel.prereleaseAccepted w →
        SemVer.cmp w v ≠ .gt) ∧
  (∀ w, ObservedIn parse l p sel.prereleaseAccepted w →
    mrLookup s sel.releaseKey p ≠ none) ∧
  (∀ b, catLookup s sel.releaseKey p = some b →
    ProvenanceIn parse l p sel.prereleaseAccepted b)

/-- The tracking invariant over both selectors and all platforms. -/
def Inv (parse : String → Option SemVer)
    (l : List (Asset × ReleaseFilter)) (s : CollectorState) : Prop :=
  ∀ sel ∈ ReleasesCollector.versionSelectors, ∀ p : String,
    SelInvAt parse l sel s p

/-! ## Embedding of get-llvm.ts -/

/-- The `BuildType` union of get-llvm.ts. -/
inductive BuildType where
  | MinSizeRel
  | Debug
deriving DecidableEq, Repr

def BuildType.render : BuildType → String
  | .MinSizeRel => "MinSizeRel"
  | .Debug => "Debug"

/-- The architecture switch of `getArchiveFileName`, on `process.arch`. -/
def archToken (processArch : String) : Except String String :=
  if processArch = "arm64" then .ok "arm64"
  else if processArch = "x64" then .ok "x86_64"
  else if processArch = "x32" then .ok "x86_64"
  else .error ("Unsupported architecture: " ++ processArch)

/-- The platform switch of `getArchiveFileName`. -/
def platformToken (platform : String) : Except String String :=
  if platform = "win32" then .ok "unknown-windows-msvc17"
  else if platform = "linux" then .ok "unknown-linux-gnu"
  else if platform = "darwin" then .ok "apple-darwin24.1.0"
  else .error ("Unsupported platform: " ++ platform)

/-- The function `getArchiveFileName` of get-llvm.ts.  The ambient
`process.arch` read inside the body is the explicit last parameter; the
`architecture` parameter is kept exactly as in the source, where the
architecture component of the name is switched on `process.arch` instead.
A thrown `Error` is an `Except.error`. -/
def getArchiveFileName (version : String) (platform : String)
    (architecture : String) (buildType : BuildType) (processArch : String) :
    Except String String :=
  match archToken processArch with
  | .error e => .error e
  | .ok arch =>
    match platformToken platform with
    | .error e => .error e
    | .ok triple =>
      .ok ("llvm-" ++ version ++ "-" ++ arch ++ "-" ++ triple ++ "-" ++
        buildType.render ++ ".tar.zst")

namespace ToolsGetter

/-- The static method `ToolsGetter.convertHashToFakeSemver`.  The hash is a
JavaScript number holding an integer; `Math.abs` followed by decimal
rendering is `Int.natAbs` followed by `toString`. -/
def convertHashToFakeSemver (hashedKey : Int) : String :=
  let minorPatch := if hashedKey > 0 then ".0.0" else ".0.1"
  toString hashedKey.natAbs ++ minorPatch

/-- One step of the running maximum behind the node-semver `maxSatisfying`
model: keep the accumulator unless the next version satisfies the range and
is above it. -/
def maxSatStep (sat : SemVer → String → Bool) (range : String)
    (acc : Option SemVer) (v : SemVer) : Option SemVer :=
  if sat v range then
    match acc with
    | none => some v
    | some m => if SemVer.cmp v m = .gt then some v else some m
  else acc

/-- Model of `maxSatisfying` of the external node-semver library: the highest
version of the list satisfying the range, `none` when no version does.
Range satisfaction itself is the parameter `sat`. -/
def maxSatisfying (sat : SemVer → String → Bool) (vs : List SemVer)
    (range : String) : Option SemVer :=
  vs.foldl (maxSatStep sat range) none

/-- The error message thrown by `matchRange` when range search fails. -/
def notFoundMessage (range : String) : String :=
  "Cannot match \x27" ++ range ++ "\x27 with any version in the catalog for llvm."

/-- The static method `ToolsGetter.matchRange`.  The catalog object is an
insertion-ordered list of key/platform-map entries so that `Object.keys` is
meaningful; `strictParse` models the strict `new SemVer(key)` constructor
(`none` when it throws) and `sat` models node-semver range satisfaction.
The try block returns the token itself when the catalog has the key with an
artifact for the target platform; every failure inside it lands in the catch
block, which runs the range search over the keys that parse strictly. -/
def matchRange (strictParse : String → Option SemVer)
    (sat : SemVer → String → Bool) (platform arch : String)
    (theCatalog : List (String × PlatMap)) (range : String) :
    Except String String :=
  let targetArchPlat := getArchitecturePlatform platform arch
  let exactHit : Bool :=
    match theCatalog.lookup range with
    | none => false
    | some packages =>
      match packages targetArchPlat with
      | none => false
      | some _ => true
  if exactHit then Except.ok range
  else
    let matchList := (theCatalog.map Prod.fst).filterMap strictParse
    match maxSatisfying sat matchList range with
    | some m => Except.ok m.render
    | none => Except.error (notFoundMessage range)

/-- A JavaScript `Error` as observed by the catch block of `saveCache`:
its constructor name and its message. -/
structure JsError where
  name : String
  message : String
deriving DecidableEq, Repr

/-- Log lines produced through the logging collaborator. -/
inductive LogEvent where
  | info (msg : String)
  | warning (msg : String)
deriving DecidableEq, Repr

/-- The method `ToolsGetter.saveCache`: the outcome of the underlying
`cache.saveCache` call is the input oracle; a rejection whose error is named
`ValidationError` is rethrown, one named `ReserveCacheError` is logged at
info level and swallowed, anything else is logged as a warning and
swallowed.  The successful value is the cache identifier. -/
def saveCache (outcome : Except JsError Nat) :
    Except JsError (Option Nat) × List LogEvent :=
  match outcome with
  | .ok id => (.ok (some id), [])
  | .error e =>
    if e.name = "ValidationError" then (.error e, [])
    else if e.name = "ReserveCacheError" then (.ok none, [LogEvent.info e.message])
    else (.ok none, [LogEvent.warning e.message])

/-- Observable I/O steps of one orchestrator run, in execution order. -/
inductive Event where
  | localCheck
  | remoteCheck
  | download
  | remoteSave
  | localSave
deriving DecidableEq, Repr

/-- Inputs of one `ToolsGetter.get` run: the constructor configuration, the
ambient process identity and environment, and the answers of the cache
collaborators (`tools.find` answers the empty string on a local miss;
`cache.restoreCache` answers the matched key or nothing; `cache.saveCache`
resolves to an identifier or rejects with an error). -/
structure GetInputs where
  llvmVersion : String
  buildType : BuildType
  useCloudCache : Bool
  useLocalCache : Bool
  processPlatform : String
  processArch : String
  runnerTemp : Option String
  localFindResult : String
  cloudRestoreResult : Option String
  remoteSaveOutcome : Except JsError Nat
deriving Repr

/-- The control flow of the private method `ToolsGetter.get`, as the ordered
list of tier and transfer operations it performs together with its
completion status.  The archive name is computed first (its switches may
throw); the missing scratch root `RUNNER_TEMP` throws next; the local tier is
consulted only when enabled; the remote tier is consulted only when enabled
and the local tier did not hit; download runs when no tier hit; the remote
save runs when the remote tier is enabled, did not hit, and the local tier
did not hit, and its rethrown validation failure aborts the run; the local
save runs last when the local tier is enabled and did not hit. -/
def get (i : GetInputs) : List Event × Except JsError Unit :=
  match getArchiveFileName i.llvmVersion i.processPlatform i.processArch
      i.buildType i.processArch with
  | .error e => ([], .error ⟨"Error", e⟩)
  | .ok _archiveFileName =>
    match i.runnerTemp with
    | none =>
      ([], .error ⟨"Error", "Environment variable process.env.RUNNER_TEMP must be set, it is used as destination directory of the cache"⟩)
    | some _ =>
      let ev1 : List Event := if i.useLocalCache then [Event.localCheck] else []
      let localCacheHit : Bool := i.useLocalCache && !(i.localFindResult == "")
      let doRemoteCheck : Bool := !localCacheHit && i.useCloudCache
      let ev2 : List Event := if doRemoteCheck then [Event.remoteCheck] else []
      let cloudCacheHitKey : Option String :=
        if doRemoteCheck then i.cloudRestoreResult else none
      let doDownload : Bool := !localCacheHit && cloudCacheHitKey == none
      let ev3 : List Event := if doDownload then [Event.download] else []
      let doRemoteSave : Bool :=
        i.useCloudCache && cloudCacheHitKey == none && !localCacheHit
      let ev5 : List Event :=
        if i.useLocalCache && !localCacheHit then [Event.localSave] else []
      if doRemoteSave then
        match saveCache i.remoteSaveOutcome with
        | (.error e, _) => (ev1 ++ ev2 ++ ev3 ++ [Event.remoteSave], .error e)
        | (.ok _, _) => (ev1 ++ ev2 ++ ev3 ++ [Event.remoteSave] ++ ev5, .ok ())
      else
        (ev1 ++ ev2 ++ ev3 ++ ev5, .ok ())

end ToolsGetter

/-! ## Concrete fixtures used by the closed witnesses -/

/-- A tiny concrete tag parser standing in for `semver.parse || semver.coerce`
in the closed witnesses. -/
def sampleParse : String → Option SemVer := fun t =>
  if t = "1.2.3" then some ⟨1, 2, 3, []⟩
  else if t = "1.2.4-rc" then some ⟨1, 2, 4, [PreId.str "rc"]⟩
  else none

def sampleFilter : ReleaseFilter :=
  ⟨"MinSizeRel", "t", ".zst", "bin", ".zst", "linux"⟩

def sampleAssets : List Asset :=
  [⟨"a.zst", "urlA", "1.2.3"⟩, ⟨"b.zst", "urlB", "1.2.4-rc"⟩]

def sampleState : CollectorState :=
  ReleasesCollector.track sampleParse [sampleFilter] sampleAssets emptyState

def twinAssetA : Asset := ⟨"a.zst", "urlA", "1.2.3"⟩

def twinAssetB : Asset := ⟨"b.zst", "urlB", "1.2.3"⟩

def twinState : CollectorState :=
  ReleasesCollector.trackFilter sampleParse twinAssetA emptyState sampleFilter

/-- A tiny concrete strict parser for the resolver witnesses. -/
def strictSampleParse : String → Option SemVer := fun t =>
  if t = "2.0.0" then some ⟨2, 0, 0, []⟩
  else if t = "2.1.0" then some ⟨2, 1, 0, []⟩
  else none

/-- A tiny concrete range-satisfaction oracle for the resolver witnesses:
the only range it accepts is the literal "^2.0.0", satisfied by major 2. -/
def sampleSat : SemVer → String → Bool := fun v r =>
  r = "^2.0.0" && v.major == 2

def samplePkg : PackageInfo := ⟨"urlP", "fileP", "bin", ".zst"⟩

/-- A platform map fixture holding one linux artifact. -/
def sampleLinuxMap : PlatMap :=
  fun q => if q = "linux" then some samplePkg else none

/-- A catalog fixture with two exact versions, both with a linux artifact. -/
def sampleCatalog : List (String × PlatMap) :=
  [("2.0.0", sampleLinuxMap), ("2.1.0", sampleLinuxMap)]

/-- Orchestrator inputs fixture: both tiers enabled, local hit. -/
def hitInputs : ToolsGetter.GetInputs :=
  { llvmVersion := "20.1.6", buildType := BuildType.MinSizeRel,
    useCloudCache := true, useLocalCache := true,
    processPlatform := "linux", processArch := "x64",
    runnerTemp := some "/tmp", localFindResult := "/cache/llvm",
    cloudRestoreResult := none, remoteSaveOutcome := Except.ok 1 }

/-- Orchestrator inputs fixture: both tiers enabled, full miss, remote save
succeeding. -/
def missInputs : ToolsGetter.GetInputs :=
  { llvmVersion := "20.1.6", buildType := BuildType.MinSizeRel,
    useCloudCache := true, useLocalCache := true,
    processPlatform := "linux", processArch := "x64",
    runnerTemp := some "/tmp", localFindResult := "",
    cloudRestoreResult := none, remoteSaveOutcome := Except.ok 1 }

/-- Orchestrator inputs fixture for the save-error policy: full miss with a
remote save rejection whose error is the parameter. -/
def saveErrInputs (e : ToolsGetter.JsError) : ToolsGetter.GetInputs :=
  { llvmVersion := "20.1.6", buildType := BuildType.MinSizeRel,
    useCloudCache := true, useLocalCache := true,
    processPlatform := "linux", processArch := "x64",
    runnerTemp := some "/tmp", localFindResult := "",
    cloudRestoreResult := none, remoteSaveOutcome := Except.error e }

/-! ## Order facts for the modelled semver precedence -/

theorem then_swap (o p : Ordering) : (o.then p).swap = o.swap.then p.swap := by
  cases o <;> rfl

theorem then_ne_gt_iff (o p : Ordering) :
    o.then p ≠ .gt ↔ o = .lt ∨ (o = .eq ∧ p ≠ .gt) := by
  cases o <;> simp [Ordering.then]

instance : Batteries.OrientedCmp charCmp :=
  ⟨by
    intro x y
    show (compare x.toNat y.toNat).swap = compare y.toNat x.toNat
    exact Batteries.OrientedCmp.symm x.toNat y.toNat⟩

instance : Batteries.TransCmp charCmp :=
  ⟨by
    intro x y z h1 h2
    have h1a : compare x.toNat y.toNat ≠ Ordering.gt := h1
    have h2a : compare y.toNat z.toNat ≠ Ordering.gt := h2
    show compare x.toNat z.toNat ≠ Ordering.gt
    exact Batteries.TransCmp.le_trans h1a h2a⟩

theorem compareList_symm (f : α → α → Ordering) [Batteries.OrientedCmp f] :
    ∀ as bs, (compareList f as bs).swap = compareList f bs as := by
  intro as
  induction as with
  | nil => intro bs; cases bs <;> rfl
  | cons x xs ih =>
    intro bs
    cases bs with
    | nil => rfl
    | cons y ys =>
      show ((f x y).then (compareList f xs ys)).swap =
        (f y x).then (compareList f ys xs)
      rw [then_swap, Batteries.OrientedCmp.symm x y, ih]

theorem compareList_le_trans (f : α → α → Ordering) [Batteries.TransCmp f] :
    ∀ as bs cs, compareList f as bs ≠ .gt → compareList f bs cs ≠ .gt →
      compareList f as cs ≠ .gt := by
  intro as
  induction as with
  | nil =>
    intro bs cs _ _
    cases cs <;> simp [compareList]
  | cons x xs ih =>
    intro bs cs h1 h2
    cases bs with
    | nil => exact absurd rfl h1
    | cons y ys =>
      cases cs with
      | nil => exact absurd rfl h2
      | cons z zs =>
        have h1a : (f x y).then (compareList f xs ys) ≠ .gt := h1
        have h2a : (f y z).then (compareList f ys zs) ≠ .gt := h2
        show (f x z).then (compareList f xs zs) ≠ .gt
        rcases (then_ne_gt_iff _ _).mp h1a with hxy | ⟨hxy, ht1⟩
        · rcases (then_ne_gt_iff _ _).mp h2a with hyz | ⟨hyz, _⟩
          · exact (then_ne_gt_iff _ _).mpr
              (Or.inl (Batteries.TransCmp.lt_trans hxy hyz))
          · have hxz : f x z = .lt := by
              rw [← Batteries.TransCmp.cmp_congr_right hyz]; exact hxy
            exact (then_ne_gt_iff _ _).mpr (Or.inl hxz)
        · rcases (then_ne_gt_iff _ _).mp h2a with hyz | ⟨hyz, ht2⟩
          · have hxz : f x z = .lt := by
              rw [Batteries.TransCmp.cmp_congr_left hxy]; exact hyz
            exact (then_ne_gt_iff _ _).mpr (Or.inl hxz)
          · have hxz : f x z = .eq := by
              rw [Batteries.TransCmp.cmp_congr_left hxy]; exact hyz
            exact (then_ne_gt_iff _ _).mpr (Or.inr ⟨hxz, ih ys zs ht1 ht2⟩)

instance : Batteries.OrientedCmp strCmp :=
  ⟨by
    intro x y
    show (compareList charCmp x.data y.data).swap = compareList charCmp y.data x.data
    exact compareList_symm charCmp x.data y.data⟩

instance : Batteries.TransCmp strCmp :=
  ⟨by
    intro x y z h1 h2
    have h1a : compareList charCmp x.data y.data ≠ .gt := h1
    have h2a : compareList charCmp y.data z.data ≠ .gt := h2
    show compareList charCmp x.data z.data ≠ .gt
    exact compareList_le_trans charCmp x.data y.data z.data h1a h2a⟩

instance : Batteries.OrientedCmp PreId.cmp :=
  ⟨by
    intro x y
    cases x <;> cases y <;> simp [PreId.cmp, Ordering.swap]
    · exact Batteries.OrientedCmp.symm _ _
    · exact Batteries.OrientedCmp.symm _ _⟩

instance : Batteries.TransCmp PreId.cmp :=
  ⟨by
    intro x y z h1 h2
    cases x <;> cases y <;> cases z <;>
      simp_all [PreId.cmp]
    · exact Batteries.TransCmp.le_trans h1 h2
    · exact Batteries.TransCmp.le_trans h1 h2⟩

theorem cmpPre_symm :
    ∀ as bs, (SemVer.cmpPre as bs).swap = SemVer.cmpPre bs as := by
  intro as
  induction as with
  | nil => intro bs; cases bs <;> rfl
  | cons x xs ih =>
    intro bs
    cases bs with
    | nil => rfl
    | cons y ys =>
      show ((PreId.cmp x y).then (SemVer.cmpPre xs ys)).swap =
        (PreId.cmp y x).then (SemVer.cmpPre ys xs)
      rw [then_swap, Batteries.OrientedCmp.symm x y, ih]

theorem cmpPre_le_trans :
    ∀ as bs cs, SemVer.cmpPre as bs ≠ .gt → SemVer.cmpPre bs cs ≠ .gt →
      SemVer.cmpPre as cs ≠ .gt := by
  intro as
  induction as with
  | nil =>
    intro bs cs h1 h2
    cases bs with
    | nil =>
      cases cs with
      | nil => simp [SemVer.cmpPre]
      | cons z zs => exact absurd rfl h2
    | cons y ys => exact absurd rfl h1
  | cons x xs ih =>
    intro bs cs h1 h2
    cases bs with
    | nil =>
      cases cs with
      | nil => simp [SemVer.cmpPre]
      | cons z zs => exact absurd rfl h2
    | cons y ys =>
      cases cs with
      | nil => simp [SemVer.cmpPre]
      | cons z zs =>
        have h1a : (PreId.cmp x y).then (SemVer.cmpPre xs ys) ≠ .gt := h1
        have h2a : (PreId.cmp y z).then (SemVer.cmpPre ys zs) ≠ .gt := h2
        show (PreId.cmp x z).then (SemVer.cmpPre xs zs) ≠ .gt
        rcases (then_ne_gt_iff _ _).mp h1a with hxy | ⟨hxy, ht1⟩
        · rcases (then_ne_gt_iff _ _).mp h2a with hyz | ⟨hyz, _⟩
          · exact (then_ne_gt_iff _ _).mpr
              (Or.inl (Batteries.TransCmp.lt_trans hxy hyz))
          · have hxz : PreId.cmp x z = .lt := by
              rw [← Batteries.TransCmp.cmp_congr_right hyz]; exact hxy
            exact (then_ne_gt_iff _ _).mpr (Or.inl hxz)
        · rcases (then_ne_gt_iff _ _).mp h2a with hyz | ⟨hyz, ht2⟩
          · have hxz : PreId.cmp x z = .lt := by
              rw [Batteries.TransCmp.cmp_congr_left hxy]; exact hyz
            exact (then_ne_gt_iff _ _).mpr (Or.inl hxz)
          · have hxz : PreId.cmp x z = .eq := by
              rw [Batteries.TransCmp.cmp_congr_left hxy]; exact hyz
            exact (then_ne_gt_iff _ _).mpr (Or.inr ⟨hxz, ih ys zs ht1 ht2⟩)

instance : Batteries.OrientedCmp preCmp :=
  ⟨by
    intro x y
    show (SemVer.cmpPre x.prerelease y.prerelease).swap =
      SemVer.cmpPre y.prerelease x.prerelease
    exact cmpPre_symm _ _⟩

instance : Batteries.TransCmp preCmp :=
  ⟨by
    intro x y z h1 h2
    have h1a : SemVer.cmpPre x.prerelease y.prerelease ≠ .gt := h1
    have h2a : SemVer.cmpPre y.prerelease z.prerelease ≠ .gt := h2
    show SemVer.cmpPre x.prerelease z.prerelease ≠ .gt
    exact cmpPre_le_trans _ _ _ h1a h2a⟩

instance : Batteries.OrientedCmp SemVer.cmp :=
  inferInstanceAs (Batteries.OrientedCmp
    (compareLex (compareOn SemVer.major)
      (compareLex (compareOn SemVer.minor)
        (compareLex (compareOn SemVer.patch) preCmp))))

instance : Batteries.TransCmp SemVer.cmp :=
  inferInstanceAs (Batteries.TransCmp
    (compareLex (compareOn SemVer.major)
      (compareLex (compareOn SemVer.minor)
        (compareLex (compareOn SemVer.patch) preCmp))))

/-! ## Rendered versions never collide with the selector keys -/

theorem dot_mem_render_data (v : SemVer) : '.' ∈ (SemVer.render v).data := by
  unfold SemVer.render
  simp [String.data_append, List.mem_append]

theorem render_ne_of_no_dot (v : SemVer) (k : String) (hk : '.' ∉ k.data) :
    SemVer.render v ≠ k := by
  intro h
  apply hk
  rw [← h]
  exact dot_mem_render_data v

theorem render_ne_latest (v : SemVer) : SemVer.render v ≠ "latest" :=
  render_ne_of_no_dot v _ (by decide)

theorem render_ne_latestrc (v : SemVer) : SemVer.render v ≠ "latestrc" :=
  render_ne_of_no_dot v _ (by decide)

/-! ## Behaviour of one selector-loop iteration -/

theorem trackSelector_mr_other (version : SemVer) (p : String)
    (s : CollectorState) (key : VersionSelector) (k q : String)
    (hk : k ≠ key.releaseKey) :
    mrLookup (ReleasesCollector.trackSelector version p s key) k q =
      mrLookup s k q := by
  unfold ReleasesCollector.trackSelector
  cases hmr : s.mostRecentReleases key.releaseKey with
  | none =>
    simp only [hmr]
    split <;> simp [mrLookup, updFun, hk, hmr]
  | some m =>
    simp only [hmr]
    split <;> simp [mrLookup, updFun, hk, hmr]

theorem trackSelector_cat_other (version : SemVer) (p : String)
    (s : CollectorState) (key : VersionSelector) (k q : String)
    (hk : k ≠ key.releaseKey) :
    catLookup (ReleasesCollector.trackSelector version p s key) k q =
      catLookup s k q := by
  unfold ReleasesCollector.trackSelector
  cases hmr : s.mostRecentReleases key.releaseKey with
  | none =>
    simp only [hmr]
    split <;> simp [catLookup, updFun, hk, hmr]
  | some m =>
    simp only [hmr]
    split <;> simp [catLookup, updFun, hk, hmr]

theorem trackSelector_mr_platform (version : SemVer) (p : String)
    (s : CollectorState) (key : VersionSelector) (q : String) (hq : q ≠ p) :
    mrLookup (ReleasesCollector.trackSelector version p s key)
        key.releaseKey q =
      mrLookup s key.releaseKey q := by
  unfold ReleasesCollector.trackSelector
  cases hmr : s.mostRecentReleases key.releaseKey with
  | none =>
    simp only [hmr]
    split <;> simp [mrLookup, updFun, hq, hmr]
  | some m =>
    simp only [hmr]
    split <;> simp [mrLookup, updFun, hq, hmr]

theorem trackSelector_cat_platform (version : SemVer) (p : String)
    (s : CollectorState) (key : VersionSelector) (q : String) (hq : q ≠ p) :
    catLookup (ReleasesCollector.trackSelector version p s key)
        key.releaseKey q =
      catLookup s key.releaseKey q := by
  unfold ReleasesCollector.trackSelector
  cases hmr : s.mostRecentReleases key.releaseKey with
  | none =>
    simp only [hmr]
    split
    · cases hcm : s.map key.releaseKey <;> simp [catLookup, updFun, hq, hmr, hcm]
    · simp [catLookup, updFun, hq, hmr]
  | some m =>
    simp only [hmr]
    split
    · cases hcm : s.map key.releaseKey <;> simp [catLookup, updFun, hq, hmr, hcm]
    · simp [catLookup, updFun, hq, hmr]

theorem trackSelector_hit (version : SemVer) (p : String)
    (s : CollectorState) (key : VersionSelector)
    (h : selectorGuard version p s key) :
    mrLookup (ReleasesCollector.trackSelector version p s key)
        key.releaseKey p = some (some version) ∧
      catLookup (ReleasesCollector.trackSelector version p s key)
        key.releaseKey p = catLookup s version.render p := by
  obtain ⟨hclass, hrec⟩ := h
  have hbe : (key.prereleaseAccepted == isPrerelease version) = true := by
    simp [hclass]
  unfold ReleasesCollector.trackSelector
  cases hmr : s.mostRecentReleases key.releaseKey with
  | none =>
    simp only [hmr]
    constructor
    · simp [mrLookup, updFun, hbe]
    · cases hre : s.map version.render <;>
        cases hcm : s.map key.releaseKey <;>
          simp [catLookup, updFun, hbe, hre, hcm]
  | some m =>
    have hlk : mrLookup s key.releaseKey p = m p := by simp [mrLookup, hmr]
    cases hmp : m p with
    | none =>
      simp only [hmr]
      constructor
      · simp [mrLookup, updFun, hbe, hmp]
      · cases hre : s.map version.render <;>
          cases hcm : s.map key.releaseKey <;>
            simp [catLookup, updFun, hbe, hmp, hre, hcm]
    | some o =>
      cases o with
      | none => simp_all
      | some r =>
        have hcmp : SemVer.cmp version r ≠ .lt := by
          rcases hrec with hnone | ⟨r2, hr2, hc2⟩
          · rw [hlk, hmp] at hnone; cases hnone
          · rw [hlk, hmp] at hr2
            cases hr2
            exact hc2
        have hcb : (SemVer.cmp version r == Ordering.lt) = false := by
          cases hx : SemVer.cmp version r
          · exact absurd hx hcmp
          · rfl
          · rfl
        simp only [hmr]
        constructor
        · simp [mrLookup, updFun, hbe, hmp, hcb]
        · cases hre : s.map version.render <;>
            cases hcm : s.map key.releaseKey <;>
              simp [catLookup, updFun, hbe, hmp, hcb, hre, hcm]

theorem trackSelector_miss (version : SemVer) (p : String)
    (s : CollectorState) (key : VersionSelector)
    (h : ¬ selectorGuard version p s key) :
    mrLookup (ReleasesCollector.trackSelector version p s key)
        key.releaseKey p = mrLookup s key.releaseKey p ∧
      catLookup (ReleasesCollector.trackSelector version p s key)
        key.releaseKey p = catLookup s key.releaseKey p := by
  unfold ReleasesCollector.trackSelector
  cases hmr : s.mostRecentReleases key.releaseKey with
  | none =>
    have hlk : mrLookup s key.releaseKey p = none := by simp [mrLookup, hmr]
    have hclass : ¬ (key.prereleaseAccepted = isPrerelease version) := by
      intro hc
      exact h ⟨hc, Or.inl hlk⟩
    have hbe : (key.prereleaseAccepted == isPrerelease version) = false := by
      simp [hclass]
    simp only [hmr]
    constructor
    · simp [mrLookup, updFun, hbe, hmr]
    · simp [catLookup, updFun, hbe]
  | some m =>
    have hlk : mrLookup s key.releaseKey p = m p := by simp [mrLookup, hmr]
    cases hmp : m p with
    | none =>
      have hclass : ¬ (key.prereleaseAccepted = isPrerelease version) := by
        intro hc
        exact h ⟨hc, Or.inl (by rw [hlk, hmp])⟩
      have hbe : (key.prereleaseAccepted == isPrerelease version) = false := by
        simp [hclass]
      simp only [hmr]
      constructor
      · simp [mrLookup, updFun, hbe, hmr]
      · simp [catLookup, updFun, hbe]
    | some o =>
      cases o with
      | none =>
        simp only [hmr]
        constructor
        · simp [mrLookup, updFun, hmp, hmr]
        · simp [catLookup, updFun, hmp]
      | some r =>
        by_cases hclass : key.prereleaseAccepted = isPrerelease version
        · have hcmp : SemVer.cmp version r = .lt := by
            by_contra hc
            exact h ⟨hclass, Or.inr ⟨r, by rw [hlk, hmp], hc⟩⟩
          have hcb : (SemVer.cmp version r == Ordering.lt) = true := by
            rw [hcmp]
            rfl
          simp only [hmr]
          constructor
          · simp [mrLookup, updFun, hmp, hcb, hmr]
          · simp [catLookup, updFun, hmp, hcb]
        · have hbe : (key.prereleaseAccepted == isPrerelease version) = false := by
            simp [hclass]
          simp only [hmr]
          constructor
          · simp [mrLookup, updFun, hbe, hmr]
          · simp [catLookup, updFun, hbe]

/-! ## Behaviour of one filter-loop iteration -/

theorem insertArtifact_mr (a : Asset) (f : ReleaseFilter) (version : SemVer)
    (s : CollectorState) (k q : String) :
    mrLookup (ReleasesCollector.insertArtifact a f version s) k q =
      mrLookup s k q := rfl

theorem insertArtifact_cat_self (a : Asset) (f : ReleaseFilter)
    (version : SemVer) (s : CollectorState) :
    catLookup (ReleasesCollector.insertArtifact a f version s)
        version.render f.platform = some (mkRelease a f) := by
  unfold ReleasesCollector.insertArtifact
  cases hre : s.map version.render <;> simp [catLookup, updFun, hre]

theorem insertArtifact_cat_otherkey (a : Asset) (f : ReleaseFilter)
    (version : SemVer) (s : CollectorState) (k q : String)
    (hk : k ≠ version.render) :
    catLookup (ReleasesCollector.insertArtifact a f version s) k q =
      catLookup s k q := by
  unfold ReleasesCollector.insertArtifact
  cases hre : s.map version.render <;> simp [catLookup, updFun, hk, hre]

theorem latest_ne_latestrc :
    ("latest" : String) ≠ "latestrc" := by decide

theorem selectorGuard_congr (version : SemVer) (p : String)
    (s t : CollectorState) (key : VersionSelector)
    (h : mrLookup t key.releaseKey p = mrLookup s key.releaseKey p) :
    selectorGuard version p t key ↔ selectorGuard version p s key := by
  unfold selectorGuard
  rw [h]

theorem trackFilter_nomatch (parse : String → Option SemVer) (a : Asset)
    (s : CollectorState) (f : ReleaseFilter) (h : ¬ FilterMatches f a) :
    ReleasesCollector.trackFilter parse a s f = s := by
  unfold ReleasesCollector.trackFilter
  unfold FilterMatches at h
  simp [h]

theorem trackFilter_noparse (parse : String → Option SemVer) (a : Asset)
    (s : CollectorState) (f : ReleaseFilter)
    (hp : parse a.tag_name = none) :
    ReleasesCollector.trackFilter parse a s f = s := by
  unfold ReleasesCollector.trackFilter
  split
  · rw [hp]
  · rfl

theorem trackFilter_parsed (parse : String → Option SemVer) (a : Asset)
    (s : CollectorState) (f : ReleaseFilter) (version : SemVer)
    (hm : FilterMatches f a) (hp : parse a.tag_name = some version) :
    ReleasesCollector.trackFilter parse a s f =
      ReleasesCollector.trackSelector version f.platform
        (ReleasesCollector.trackSelector version f.platform
          (ReleasesCollector.insertArtifact a f version s)
          ⟨"latest", false⟩)
        ⟨"latestrc", true⟩ := by
  unfold ReleasesCollector.trackFilter
  unfold FilterMatches at hm
  simp [hm, hp]
  rfl

theorem trackFilter_sel_hit (parse : String → Option SemVer) (a : Asset)
    (s : CollectorState) (f : ReleaseFilter) (version : SemVer)
    (sel : VersionSelector) (hm : FilterMatches f a)
    (hp : parse a.tag_name = some version)
    (hsel : sel ∈ ReleasesCollector.versionSelectors)
    (hg : selectorGuard version f.platform s sel) :
    mrLookup (ReleasesCollector.trackFilter parse a s f)
        sel.releaseKey f.platform = some (some version) ∧
      catLookup (ReleasesCollector.trackFilter parse a s f)
        sel.releaseKey f.platform = some (mkRelease a f) := by
  rw [trackFilter_parsed parse a s f version hm hp]
  simp only [ReleasesCollector.versionSelectors, List.mem_cons,
    List.not_mem_nil, or_false] at hsel
  rcases hsel with rfl | rfl
  · have hg1 : selectorGuard version f.platform
        (ReleasesCollector.insertArtifact a f version s)
        ⟨"latest", false⟩ := by
      rw [selectorGuard_congr version f.platform s _ _
        (insertArtifact_mr a f version s _ _)]
      exact hg
    obtain ⟨h1mr, h1cat⟩ := trackSelector_hit version f.platform _ _ hg1
    constructor
    · rw [trackSelector_mr_other version f.platform _ ⟨"latestrc", true⟩
        "latest" f.platform latest_ne_latestrc]
      exact h1mr
    · rw [trackSelector_cat_other version f.platform _ ⟨"latestrc", true⟩
        "latest" f.platform latest_ne_latestrc]
      rw [h1cat]
      exact insertArtifact_cat_self a f version s
  · have h2mreq : ∀ q, mrLookup
        (ReleasesCollector.trackSelector version f.platform
          (ReleasesCollector.insertArtifact a f version s)
          ⟨"latest", false⟩) "latestrc" q = mrLookup s "latestrc" q := by
      intro q
      rw [trackSelector_mr_other version f.platform _ ⟨"latest", false⟩
        "latestrc" q (Ne.symm latest_ne_latestrc)]
      exact insertArtifact_mr a f version s _ _
    have hg2 : selectorGuard version f.platform
        (ReleasesCollector.trackSelector version f.platform
          (ReleasesCollector.insertArtifact a f version s)
          ⟨"latest", false⟩)
        ⟨"latestrc", true⟩ := by
      rw [selectorGuard_congr version f.platform s _ _ (h2mreq f.platform)]
      exact hg
    obtain ⟨h2mr, h2cat⟩ := trackSelector_hit version f.platform _ _ hg2
    refine ⟨h2mr, ?_⟩
    rw [h2cat]
    rw [trackSelector_cat_other version f.platform _ ⟨"latest", false⟩
      version.render f.platform (render_ne_latest version)]
    exact insertArtifact_cat_self a f version s

theorem trackFilter_sel_miss (parse : String → Option SemVer) (a : Asset)
    (s : CollectorState) (f : ReleaseFilter) (version : SemVer)
    (sel : VersionSelector) (hm : FilterMatches f a)
    (hp : parse a.tag_name = some version)
    (hsel : sel ∈ ReleasesCollector.versionSelectors)
    (hg : ¬ selectorGuard version f.platform s sel) :
    mrLookup (ReleasesCollector.trackFilter parse a s f)
        sel.releaseKey f.platform = mrLookup s sel.releaseKey f.platform ∧
      catLookup (ReleasesCollector.trackFilter parse a s f)
        sel.releaseKey f.platform = catLookup s sel.releaseKey f.platform := by
  rw [trackFilter_parsed parse a s f version hm hp]
  simp only [ReleasesCollector.versionSelectors, List.mem_cons,
    List.not_mem_nil, or_false] at hsel
  rcases hsel with rfl | rfl
  · have hg1 : ¬ selectorGuard version f.platform
        (ReleasesCollector.insertArtifact a f version s)
        ⟨"latest", false⟩ := by
      rw [selectorGuard_congr version f.platform s _ _
        (insertArtifact_mr a f version s _ _)]
      exact hg
    obtain ⟨h1mr, h1cat⟩ := trackSelector_miss version f.platform _ _ hg1
    constructor
    · rw [trackSelector_mr_other version f.platform _ ⟨"latestrc", true⟩
        "latest" f.platform latest_ne_latestrc]
      rw [h1mr]
      exact insertArtifact_mr a f version s _ _
    · rw [trackSelector_cat_other version f.platform _ ⟨"latestrc", true⟩
        "latest" f.platform latest_ne_latestrc]
      rw [h1cat]
      exact insertArtifact_cat_otherkey a f version s "latest" f.platform
        (Ne.symm (render_ne_latest version))
  · have h2mreq : ∀ q, mrLookup
        (ReleasesCollector.trackSelector version f.platform
          (ReleasesCollector.insertArtifact a f version s)
          ⟨"latest", false⟩) "latestrc" q = mrLookup s "latestrc" q := by
      intro q
      rw [trackSelector_mr_other version f.platform _ ⟨"latest", false⟩
        "latestrc" q (Ne.symm latest_ne_latestrc)]
      exact insertArtifact_mr a f version s _ _
    have hg2 : ¬ selectorGuard version f.platform
        (ReleasesCollector.trackSelector version f.platform
          (ReleasesCollector.insertArtifact a f version s)
          ⟨"latest", false⟩)
        ⟨"latestrc", true⟩ := by
      rw [selectorGuard_congr version f.platform s _ _ (h2mreq f.platform)]
      exact hg
    obtain ⟨h2mr, h2cat⟩ := trackSelector_miss version f.platform _ _ hg2
    constructor
    · rw [h2mr]
      exact h2mreq f.platform
    · rw [h2cat]
      rw [trackSelector_cat_other version f.platform _ ⟨"latest", false⟩
        "latestrc" f.platform (Ne.symm latest_ne_latestrc)]
      exact insertArtifact_cat_otherkey a f version s "latestrc" f.platform
        (Ne.symm (render_ne_latestrc version))

theorem trackFilter_sel_otherplat (parse : String → Option SemVer) (a : Asset)
    (s : CollectorState) (f : ReleaseFilter) (version : SemVer)
    (sel : VersionSelector) (hm : FilterMatches f a)
    (hp : parse a.tag_name = some version)
    (hsel : sel ∈ ReleasesCollector.versionSelectors)
    (q : String) (hq : q ≠ f.platform) :
    mrLookup (ReleasesCollector.trackFilter parse a s f)
        sel.releaseKey q = mrLookup s sel.releaseKey q ∧
      catLookup (ReleasesCollector.trackFilter parse a s f)
        sel.releaseKey q = catLookup s sel.releaseKey q := by
  rw [trackFilter_parsed parse a s f version hm hp]
  simp only [ReleasesCollector.versionSelectors, List.mem_cons,
    List.not_mem_nil, or_false] at hsel
  rcases hsel with rfl | rfl
  · constructor
    · rw [trackSelector_mr_other version f.platform _ ⟨"latestrc", true⟩
        "latest" q latest_ne_latestrc]
      rw [trackSelector_mr_platform version f.platform _ ⟨"latest", false⟩
        q hq]
      exact insertArtifact_mr a f version s _ _
    · rw [trackSelector_cat_other version f.platform _ ⟨"latestrc", true⟩
        "latest" q latest_ne_latestrc]
      rw [trackSelector_cat_platform version f.platform _ ⟨"latest", false⟩
        q hq]
      exact insertArtifact_cat_otherkey a f version s "latest" q
        (Ne.symm (render_ne_latest version))
  · constructor
    · rw [trackSelector_mr_platform version f.platform _ ⟨"latestrc", true⟩
        q hq]
      rw [trackSelector_mr_other version f.platform _ ⟨"latest", false⟩
        "latestrc" q (Ne.symm latest_ne_latestrc)]
      exact insertArtifact_mr a f version s _ _
    · rw [trackSelector_cat_platform version f.platform _ ⟨"latestrc", true⟩
        q hq]
      rw [trackSelector_cat_other version f.platform _ ⟨"latest", false⟩
        "latestrc" q (Ne.symm latest_ne_latestrc)]
      exact insertArtifact_cat_otherkey a f version s "latestrc" q
        (Ne.symm (render_ne_latestrc version))

theorem trackFilter_otherkey (parse : String → Option SemVer) (a : Asset)
    (s : CollectorState) (f : ReleaseFilter) (version : SemVer)
    (hm : FilterMatches f a) (hp : parse a.tag_name = some version)
    (k q : String) (hk1 : k ≠ "latest") (hk2 : k ≠ "latestrc") :
    mrLookup (ReleasesCollector.trackFilter parse a s f) k q =
        mrLookup s k q ∧
      (k ≠ version.render →
        catLookup (ReleasesCollector.trackFilter parse a s f) k q =
          catLookup s k q) := by
  rw [trackFilter_parsed parse a s f version hm hp]
  constructor
  · rw [trackSelector_mr_other version f.platform _ ⟨"latestrc", true⟩
      k q hk2]
    rw [trackSelector_mr_other version f.platform _ ⟨"latest", false⟩
      k q hk1]
    exact insertArtifact_mr a f version s _ _
  · intro hk3
    rw [trackSelector_cat_other version f.platform _ ⟨"latestrc", true⟩
      k q hk2]
    rw [trackSelector_cat_other version f.platform _ ⟨"latest", false⟩
      k q hk1]
    exact insertArtifact_cat_otherkey a f version s k q hk3

/-! ## The tracking invariant -/

theorem observedIn_append (parse : String → Option SemVer)
    (l1 l2 : List (Asset × ReleaseFilter)) (p : String) (pre : Bool)
    (w : SemVer) :
    ObservedIn parse (l1 ++ l2) p pre w ↔
      ObservedIn parse l1 p pre w ∨ ObservedIn parse l2 p pre w := by
  simp [ObservedIn, List.mem_append, or_and_right, exists_or]

theorem observedIn_single (parse : String → Option SemVer)
    (af : Asset × ReleaseFilter) (p : String) (pre : Bool) (w : SemVer) :
    ObservedIn parse [af] p pre w ↔
      FilterMatches af.2 af.1 ∧ af.2.platform = p ∧
        parse af.1.tag_name = some w ∧ isPrerelease w = pre := by
  simp [ObservedIn]

theorem provenanceIn_append (parse : String → Option SemVer)
    (l1 l2 : List (Asset × ReleaseFilter)) (p : String) (pre : Bool)
    (b : PackageInfo) :
    ProvenanceIn parse (l1 ++ l2) p pre b ↔
      ProvenanceIn parse l1 p pre b ∨ ProvenanceIn parse l2 p pre b := by
  simp [ProvenanceIn, List.mem_append, or_and_right, exists_or]

theorem provenanceIn_single (parse : String → Option SemVer)
    (af : Asset × ReleaseFilter) (p : String) (pre : Bool)
    (b : PackageInfo) :
    ProvenanceIn parse [af] p pre b ↔
      FilterMatches af.2 af.1 ∧ af.2.platform = p ∧
        (∃ w, parse af.1.tag_name = some w ∧ isPrerelease w = pre ∧
          b = mkRelease af.1 af.2) := by
  simp [ProvenanceIn]

theorem swap_ne_gt_of_ne_lt {o : Ordering} (h : o ≠ .lt) : o.swap ≠ .gt := by
  cases o <;> simp_all [Ordering.swap]

theorem selInvAt_transfer (parse : String → Option SemVer)
    (l l2 : List (Asset × ReleaseFilter)) (sel : VersionSelector)
    (s t : CollectorState) (p : String)
    (hobs : ∀ w, ObservedIn parse l2 p sel.prereleaseAccepted w ↔
      ObservedIn parse l p sel.prereleaseAccepted w)
    (hprov : ∀ b, ProvenanceIn parse l p sel.prereleaseAccepted b →
      ProvenanceIn parse l2 p sel.prereleaseAccepted b)
    (hmr : mrLookup t sel.releaseKey p = mrLookup s sel.releaseKey p)
    (hcat : catLookup t sel.releaseKey p = catLookup s sel.releaseKey p)
    (h : SelInvAt parse l sel s p) : SelInvAt parse l2 sel t p := by
  obtain ⟨c1, c2, c3⟩ := h
  refine ⟨?_, ?_, ?_⟩
  · intro x hx
    rw [hmr] at hx
    obtain ⟨v, hv1, hv2, hv3, hv4⟩ := c1 x hx
    exact ⟨v, hv1, hv2, (hobs v).mpr hv3, fun w hw => hv4 w ((hobs w).mp hw)⟩
  · intro w hw
    rw [hmr]
    exact c2 w ((hobs w).mp hw)
  · intro b hb
    rw [hcat] at hb
    exact hprov b (c3 b hb)

theorem inv_step (parse : String → Option SemVer)
    (l : List (Asset × ReleaseFilter)) (af : Asset × ReleaseFilter)
    (s : CollectorState) (h : Inv parse l s) :
    Inv parse (l ++ [af]) (ReleasesCollector.trackPair parse s af) := by
  obtain ⟨a, f⟩ := af
  intro sel hsel p
  have hS : SelInvAt parse l sel s p := h sel hsel p
  by_cases hm : FilterMatches f a
  case neg =>
    have hst : ReleasesCollector.trackPair parse s (a, f) = s :=
      trackFilter_nomatch parse a s f hm
    rw [hst]
    refine selInvAt_transfer parse l _ sel s s p ?_ ?_ rfl rfl hS
    · intro w
      rw [observedIn_append]
      constructor
      · rintro (hw | hw)
        · exact hw
        · rw [observedIn_single] at hw
          exact absurd hw.1 hm
      · exact Or.inl
    · intro b hb
      rw [provenanceIn_append]
      exact Or.inl hb
  case pos =>
  cases hp : parse a.tag_name with
  | none =>
    have hst : ReleasesCollector.trackPair parse s (a, f) = s :=
      trackFilter_noparse parse a s f hp
    rw [hst]
    refine selInvAt_transfer parse l _ sel s s p ?_ ?_ rfl rfl hS
    · intro w
      rw [observedIn_append]
      constructor
      · rintro (hw | hw)
        · exact hw
        · rw [observedIn_single] at hw
          rw [hp] at hw
          cases hw.2.2.1
      · exact Or.inl
    · intro b hb
      rw [provenanceIn_append]
      exact Or.inl hb
  | some version =>
  have htp : ReleasesCollector.trackPair parse s (a, f) =
      ReleasesCollector.trackFilter parse a s f := rfl
  rw [htp]
  by_cases hpf : p = f.platform
  case neg =>
    obtain ⟨hmr, hcat⟩ :=
      trackFilter_sel_otherplat parse a s f version sel hm hp hsel p hpf
    refine selInvAt_transfer parse l _ sel s _ p ?_ ?_ hmr hcat hS
    · intro w
      rw [observedIn_append]
      constructor
      · rintro (hw | hw)
        · exact hw
        · rw [observedIn_single] at hw
          exact absurd hw.2.1.symm hpf
      · exact Or.inl
    · intro b hb
      rw [provenanceIn_append]
      exact Or.inl hb
  case pos =>
  subst hpf
  by_cases hclass : sel.prereleaseAccepted = isPrerelease version
  case neg =>
    have hg : ¬ selectorGuard version f.platform s sel := fun hg => hclass hg.1
    obtain ⟨hmr, hcat⟩ :=
      trackFilter_sel_miss parse a s f version sel hm hp hsel hg
    refine selInvAt_transfer parse l _ sel s _ f.platform ?_ ?_ hmr hcat hS
    · intro w
      rw [observedIn_append]
      constructor
      · rintro (hw | hw)
        · exact hw
        · rw [observedIn_single] at hw
          obtain ⟨_, _, hpw, hprew⟩ := hw
          rw [hp] at hpw
          cases hpw
          exact absurd hprew.symm hclass
      · exact Or.inl
    · intro b hb
      rw [provenanceIn_append]
      exact Or.inl hb
  case pos =>
  obtain ⟨c1, c2, c3⟩ := hS
  have hobs_new : ObservedIn parse (l ++ [(a, f)]) f.platform
      sel.prereleaseAccepted version := by
    rw [observedIn_append, observedIn_single]
    exact Or.inr ⟨hm, rfl, hp, hclass.symm⟩
  have hprov_new : ProvenanceIn parse (l ++ [(a, f)]) f.platform
      sel.prereleaseAccepted (mkRelease a f) := by
    rw [provenanceIn_append, provenanceIn_single]
    exact Or.inr ⟨hm, rfl, version, hp, hclass.symm, rfl⟩
  cases hx : mrLookup s sel.releaseKey f.platform with
  | none =>
    have hnoobs : ∀ w,
        ¬ ObservedIn parse l f.platform sel.prereleaseAccepted w :=
      fun w hw => absurd hx (c2 w hw)
    have hg : selectorGuard version f.platform s sel := ⟨hclass, Or.inl hx⟩
    obtain ⟨hmr, hcat⟩ :=
      trackFilter_sel_hit parse a s f version sel hm hp hsel hg
    refine ⟨?_, ?_, ?_⟩
    · intro x0 hx0
      rw [hmr] at hx0
      cases hx0
      refine ⟨version, rfl, hclass.symm, hobs_new, ?_⟩
      intro w hw
      rw [observedIn_append] at hw
      rcases hw with hw | hw
      · exact absurd hw (hnoobs w)
      · rw [observedIn_single] at hw
        obtain ⟨_, _, hpw, _⟩ := hw
        rw [hp] at hpw
        cases hpw
        have hrefl : SemVer.cmp version version = Ordering.eq :=
          Batteries.OrientedCmp.cmp_refl
        rw [hrefl]
        simp
    · intro w _
      rw [hmr]
      simp
    · intro b hb
      rw [hcat] at hb
      cases hb
      exact hprov_new
  | some x =>
    obtain ⟨r, hr1, hr2, hr3, hr4⟩ := c1 x hx
    subst hr1
    by_cases hcmp : SemVer.cmp version r = .lt
    case neg =>
      have hg : selectorGuard version f.platform s sel :=
        ⟨hclass, Or.inr ⟨r, hx, hcmp⟩⟩
      obtain ⟨hmr, hcat⟩ :=
        trackFilter_sel_hit parse a s f version sel hm hp hsel hg
      have hrv : SemVer.cmp r version ≠ .gt := by
        have hsw : (SemVer.cmp version r).swap ≠ .gt :=
          swap_ne_gt_of_ne_lt hcmp
        rw [Batteries.OrientedCmp.symm version r] at hsw
        exact hsw
      refine ⟨?_, ?_, ?_⟩
      · intro x0 hx0
        rw [hmr] at hx0
        cases hx0
        refine ⟨version, rfl, hclass.symm, hobs_new, ?_⟩
        intro w hw
        rw [observedIn_append] at hw
        rcases hw with hw | hw
        · exact Batteries.TransCmp.le_trans (hr4 w hw) hrv
        · rw [observedIn_single] at hw
          obtain ⟨_, _, hpw, _⟩ := hw
          rw [hp] at hpw
          cases hpw
          have hrefl : SemVer.cmp version version = Ordering.eq :=
            Batteries.OrientedCmp.cmp_refl
          rw [hrefl]
          simp
      · intro w _
        rw [hmr]
        simp
      · intro b hb
        rw [hcat] at hb
        cases hb
        exact hprov_new
    case pos =>
      have hg : ¬ selectorGuard version f.platform s sel := by
        rintro ⟨_, hd⟩
        rcases hd with hnone | ⟨r2, hr2e, hc2⟩
        · rw [hx] at hnone
          cases hnone
        · rw [hx] at hr2e
          cases hr2e
          exact hc2 hcmp
      obtain ⟨hmr, hcat⟩ :=
        trackFilter_sel_miss parse a s f version sel hm hp hsel hg
      refine ⟨?_, ?_, ?_⟩
      · intro x0 hx0
        rw [hmr, hx] at hx0
        cases hx0
        refine ⟨r, rfl, hr2, ?_, ?_⟩
        · rw [observedIn_append]
          exact Or.inl hr3
        · intro w hw
          rw [observedIn_append] at hw
          rcases hw with hw | hw
          · exact hr4 w hw
          · rw [observedIn_single] at hw
            obtain ⟨_, _, hpw, _⟩ := hw
            rw [hp] at hpw
            cases hpw
            rw [hcmp]
            simp
      · intro w _
        rw [hmr, hx]
        simp
      · intro b hb
        rw [hcat] at hb
        rw [provenanceIn_append]
        exact Or.inl (c3 b hb)

theorem inv_nil (parse : String → Option SemVer) :
    Inv parse [] emptyState := by
  intro sel hsel p
  refine ⟨?_, ?_, ?_⟩
  · intro x hx
    simp [mrLookup, emptyState] at hx
  · intro w hw
    simp [ObservedIn] at hw
  · intro b hb
    simp [catLookup, emptyState] at hb

theorem foldl_inv (parse : String → Option SemVer) :
    ∀ (l2 l1 : List (Asset × ReleaseFilter)) (s : CollectorState),
      Inv parse l1 s →
      Inv parse (l1 ++ l2)
        (l2.foldl (ReleasesCollector.trackPair parse) s) := by
  intro l2
  induction l2 with
  | nil =>
    intro l1 s h
    simpa using h
  | cons x xs ih =>
    intro l1 s h
    have h2 := ih (l1 ++ [x]) (ReleasesCollector.trackPair parse s x)
      (inv_step parse l1 x s h)
    simpa [List.append_assoc] using h2

theorem track_eq_pairs (parse : String → Option SemVer)
    (filters : List ReleaseFilter) (assets : List Asset)
    (s : CollectorState) :
    ReleasesCollector.track parse filters assets s =
      (ReleasesCollector.pairsOf assets filters).foldl
        (ReleasesCollector.trackPair parse) s := by
  induction assets generalizing s with
  | nil => rfl
  | cons a as ih =>
    have e1 : ReleasesCollector.track parse filters (a :: as) s =
        ReleasesCollector.track parse filters as
          (filters.foldl (ReleasesCollector.trackFilter parse a) s) := rfl
    have e2 : filters.foldl (ReleasesCollector.trackFilter parse a) s =
        (filters.map (fun f => (a, f))).foldl
          (ReleasesCollector.trackPair parse) s := by
      rw [List.foldl_map]
      rfl
    have e3 : ReleasesCollector.pairsOf (a :: as) filters =
        (filters.map (fun f => (a, f))) ++
          ReleasesCollector.pairsOf as filters := by
      simp [ReleasesCollector.pairsOf]
    rw [e1, ih, e2, e3, List.foldl_append]

theorem track_inv (parse : String → Option SemVer)
    (filters : List ReleaseFilter) (assets : List Asset) :
    Inv parse (ReleasesCollector.pairsOf assets filters)
      (ReleasesCollector.track parse filters assets emptyState) := by
  rw [track_eq_pairs]
  have h := foldl_inv parse (ReleasesCollector.pairsOf assets filters) []
    emptyState (inv_nil parse)
  simpa using h

/-! ## Claim C1 -/

/-- C1 counterexample: the claim names the two selectors "latest" and
"latest-prerelease", but the catalog builder maintains the selectors
"latest" and "latestrc"; there is no selector named "latest-prerelease". -/
theorem C1_counterexample :
    ReleasesCollector.versionSelectors.map VersionSelector.releaseKey ≠
      ["latest", "latest-prerelease"] := by decide

/-- C1 (amended: the second selector is named "latestrc"): the catalog
builder maintains exactly the two named selectors "latest" and "latestrc";
after ingesting any asset list from the empty state, for every platform,
a most-recent entry recorded under a selector is a version of that selector
prerelease class ("latest" never a prerelease, "latestrc" always one), was
actually observed on that platform, and is maximal in the semver order among
the versions observed on that platform within the acceptance class of the
selector; and a catalog entry mirrored under a selector key is the artifact
reference of an observed asset whose version is in that acceptance class. -/
theorem C1_per_class_selector_tracking
    (parse : String → Option SemVer) (filters : List ReleaseFilter)
    (assets : List Asset) (sel : VersionSelector)
    (hsel : sel ∈ ReleasesCollector.versionSelectors) (p : String) :
    (ReleasesCollector.versionSelectors.map VersionSelector.releaseKey =
      ["latest", "latestrc"]) ∧
    (∀ x, mrLookup (ReleasesCollector.track parse filters assets emptyState)
        sel.releaseKey p = some x →
      ∃ v, x = some v ∧ isPrerelease v = sel.prereleaseAccepted ∧
        ObservedIn parse (ReleasesCollector.pairsOf assets filters) p
          sel.prereleaseAccepted v ∧
        ∀ w, ObservedIn parse (ReleasesCollector.pairsOf assets filters) p
          sel.prereleaseAccepted w → SemVer.cmp w v ≠ .gt) ∧
    (∀ b, catLookup (ReleasesCollector.track parse filters assets emptyState)
        sel.releaseKey p = some b →
      ProvenanceIn parse (ReleasesCollector.pairsOf assets filters) p
        sel.prereleaseAccepted b) := by
  obtain ⟨c1, c2, c3⟩ := track_inv parse filters assets sel hsel p
  exact ⟨by decide, c1, c3⟩

/-- C1 witness: on a concrete two-asset ingestion (a stable 1.2.3 and a
prerelease 1.2.4-rc for the linux platform), the "latest" selector records
the stable 1.2.3 and the recorded version satisfies the stated class,
observation and maximality properties. -/
theorem C1_witness :
    (⟨"latest", false⟩ : VersionSelector) ∈
        ReleasesCollector.versionSelectors ∧
      mrLookup sampleState "latest" "linux" =
        some (some ⟨1, 2, 3, []⟩) ∧
      ∃ v, (some (⟨1, 2, 3, []⟩ : SemVer) : Option SemVer) = some v ∧
        isPrerelease v = false ∧
        ObservedIn sampleParse
          (ReleasesCollector.pairsOf sampleAssets [sampleFilter])
          "linux" false v ∧
        ∀ w, ObservedIn sampleParse
          (ReleasesCollector.pairsOf sampleAssets [sampleFilter])
          "linux" false w → SemVer.cmp w v ≠ .gt := by
  refine ⟨by decide, by decide, ?_⟩
  exact (C1_per_class_selector_tracking sampleParse [sampleFilter]
    sampleAssets ⟨"latest", false⟩ (by decide) "linux").2.1
    (some ⟨1, 2, 3, []⟩) (by decide)

/-! ## Claim C7 -/

/-- C7: during tracking of one matched asset whose tag parses to a version,
for the selector whose acceptance class matches that version, the
most-recent index entry and the mirrored catalog entry are updated exactly
when nothing is recorded yet for that selector and platform or the observed
version compares greater than or equal to the recorded one; when they are
updated, the mirrored slot receives the artifact reference of the asset
being processed, so on equal versions the later-processed asset wins;
when the observed version compares strictly below the recorded one, both
entries are left unchanged. -/
theorem C7_most_recent_update_rule (parse : String → Option SemVer)
    (a : Asset) (s : CollectorState) (f : ReleaseFilter) (version : SemVer)
    (sel : VersionSelector) (hm : FilterMatches f a)
    (hp : parse a.tag_name = some version)
    (hsel : sel ∈ ReleasesCollector.versionSelectors)
    (hclass : sel.prereleaseAccepted = isPrerelease version) :
    ((mrLookup s sel.releaseKey f.platform = none ∨
      ∃ r, mrLookup s sel.releaseKey f.platform = some (some r) ∧
        SemVer.cmp version r ≠ .lt) →
      mrLookup (ReleasesCollector.trackFilter parse a s f) sel.releaseKey
          f.platform = some (some version) ∧
        catLookup (ReleasesCollector.trackFilter parse a s f) sel.releaseKey
          f.platform = some (mkRelease a f)) ∧
    (∀ r, mrLookup s sel.releaseKey f.platform = some (some r) →
      SemVer.cmp version r = .lt →
      mrLookup (ReleasesCollector.trackFilter parse a s f) sel.releaseKey
          f.platform = mrLookup s sel.releaseKey f.platform ∧
        catLookup (ReleasesCollector.trackFilter parse a s f) sel.releaseKey
          f.platform = catLookup s sel.releaseKey f.platform) := by
  constructor
  · intro hd
    exact trackFilter_sel_hit parse a s f version sel hm hp hsel ⟨hclass, hd⟩
  · intro r hr hcmp
    apply trackFilter_sel_miss parse a s f version sel hm hp hsel
    rintro ⟨_, hd⟩
    rcases hd with hnone | ⟨r2, hr2, hc2⟩
    · rw [hr] at hnone
      cases hnone
    · rw [hr] at hr2
      cases hr2
      exact hc2 hcmp

/-- C7 witness: two assets carrying the equal version 1.2.3 for the same
platform; after the first is tracked, tracking the second updates the
"latest" slots again (greater-than-or-equal comparison), and the mirrored
catalog entry is the artifact reference of the second, later-processed
asset. -/
theorem C7_witness :
    FilterMatches sampleFilter twinAssetB ∧
      sampleParse twinAssetB.tag_name = some ⟨1, 2, 3, []⟩ ∧
      (⟨"latest", false⟩ : VersionSelector) ∈
        ReleasesCollector.versionSelectors ∧
      (false = isPrerelease (⟨1, 2, 3, []⟩ : SemVer)) ∧
      mrLookup twinState "latest" "linux" = some (some ⟨1, 2, 3, []⟩) ∧
      SemVer.cmp ⟨1, 2, 3, []⟩ ⟨1, 2, 3, []⟩ ≠ .lt ∧
      (mrLookup (ReleasesCollector.trackFilter sampleParse twinAssetB
          twinState sampleFilter) "latest" "linux" =
        some (some ⟨1, 2, 3, []⟩) ∧
      catLookup (ReleasesCollector.trackFilter sampleParse twinAssetB
          twinState sampleFilter) "latest" "linux" =
        some (mkRelease twinAssetB sampleFilter)) := by
  refine ⟨by decide, by decide, by decide, by decide, by decide, by decide, ?_⟩
  exact (C7_most_recent_update_rule sampleParse twinAssetB twinState
    sampleFilter ⟨1, 2, 3, []⟩ ⟨"latest", false⟩ (by decide) (by decide)
    (by decide) (by decide)).1
    (Or.inr ⟨⟨1, 2, 3, []⟩, by decide, by decide⟩)

/-! ## The running maximum behind the range search -/

theorem maxSat_aux (sat : SemVer → String → Bool) (range : String) :
    ∀ (vs : List SemVer) (acc : Option SemVer),
      (vs.foldl (ToolsGetter.maxSatStep sat range) acc = none →
        acc = none ∧ ∀ w ∈ vs, sat w range = false) ∧
      (∀ m, vs.foldl (ToolsGetter.maxSatStep sat range) acc = some m →
        (acc = some m ∨ (m ∈ vs ∧ sat m range = true)) ∧
        (∀ w ∈ vs, sat w range = true → SemVer.cmp w m ≠ .gt) ∧
        (∀ m0, acc = some m0 → SemVer.cmp m0 m ≠ .gt)) := by
  intro vs
  induction vs with
  | nil =>
    intro acc
    constructor
    · intro h
      exact ⟨h, by simp⟩
    · intro m h
      refine ⟨Or.inl h, by simp, ?_⟩
      intro m0 hm0
      rw [hm0] at h
      injection h with he
      subst he
      have hrefl : SemVer.cmp m0 m0 = Ordering.eq :=
        Batteries.OrientedCmp.cmp_refl
      rw [hrefl]
      simp
  | cons v vs ih =>
    intro acc
    cases hsv : sat v range with
    | false =>
      have hstep : ToolsGetter.maxSatStep sat range acc v = acc := by
        simp [ToolsGetter.maxSatStep, hsv]
      constructor
      · intro h
        rw [List.foldl_cons, hstep] at h
        obtain ⟨h1, h2⟩ := (ih acc).1 h
        refine ⟨h1, ?_⟩
        intro w hw
        rcases List.mem_cons.mp hw with rfl | hw2
        · exact hsv
        · exact h2 w hw2
      · intro m h
        rw [List.foldl_cons, hstep] at h
        obtain ⟨h1, h2, h3⟩ := (ih acc).2 m h
        refine ⟨?_, ?_, h3⟩
        · rcases h1 with h1 | ⟨hm1, hm2⟩
          · exact Or.inl h1
          · exact Or.inr ⟨List.mem_cons_of_mem v hm1, hm2⟩
        · intro w hw hws
          rcases List.mem_cons.mp hw with rfl | hw2
          · rw [hws] at hsv
            cases hsv
          · exact h2 w hw2 hws
    | true =>
      cases hacc : acc with
      | none =>
        have hstep : ToolsGetter.maxSatStep sat range none v = some v := by
          simp [ToolsGetter.maxSatStep, hsv]
        constructor
        · intro h
          rw [List.foldl_cons, hstep] at h
          obtain ⟨h1, _⟩ := (ih (some v)).1 h
          cases h1
        · intro m h
          rw [List.foldl_cons, hstep] at h
          obtain ⟨h1, h2, h3⟩ := (ih (some v)).2 m h
          refine ⟨?_, ?_, ?_⟩
          · rcases h1 with h1 | ⟨hm1, hm2⟩
            · injection h1 with he
              subst he
              exact Or.inr ⟨List.mem_cons_self v vs, hsv⟩
            · exact Or.inr ⟨List.mem_cons_of_mem v hm1, hm2⟩
          · intro w hw hws
            rcases List.mem_cons.mp hw with rfl | hw2
            · exact h3 w rfl
            · exact h2 w hw2 hws
          · intro m0 hm0
            cases hm0
      | some m0a =>
        by_cases hgt : SemVer.cmp v m0a = .gt
        · have hstep : ToolsGetter.maxSatStep sat range (some m0a) v =
              some v := by
            simp [ToolsGetter.maxSatStep, hsv, hgt]
          constructor
          · intro h
            rw [List.foldl_cons, hstep] at h
            obtain ⟨h1, _⟩ := (ih (some v)).1 h
            cases h1
          · intro m h
            rw [List.foldl_cons, hstep] at h
            obtain ⟨h1, h2, h3⟩ := (ih (some v)).2 m h
            have hvm : SemVer.cmp v m ≠ .gt := h3 v rfl
            refine ⟨?_, ?_, ?_⟩
            · rcases h1 with h1 | ⟨hm1, hm2⟩
              · injection h1 with he
                subst he
                exact Or.inr ⟨List.mem_cons_self v vs, hsv⟩
              · exact Or.inr ⟨List.mem_cons_of_mem v hm1, hm2⟩
            · intro w hw hws
              rcases List.mem_cons.mp hw with rfl | hw2
              · exact hvm
              · exact h2 w hw2 hws
            · intro m1 hm1
              injection hm1 with he
              subst he
              have hlt : SemVer.cmp m0a v = .lt :=
                (Batteries.OrientedCmp.cmp_eq_gt).mp hgt
              refine Batteries.TransCmp.le_trans ?_ hvm
              rw [hlt]
              simp
        · have hstep : ToolsGetter.maxSatStep sat range (some m0a) v =
              some m0a := by
            simp [ToolsGetter.maxSatStep, hsv, hgt]
          constructor
          · intro h
            rw [List.foldl_cons, hstep] at h
            obtain ⟨h1, _⟩ := (ih (some m0a)).1 h
            cases h1
          · intro m h
            rw [List.foldl_cons, hstep] at h
            obtain ⟨h1, h2, h3⟩ := (ih (some m0a)).2 m h
            have h0m : SemVer.cmp m0a m ≠ .gt := h3 m0a rfl
            refine ⟨?_, ?_, ?_⟩
            · rcases h1 with h1 | ⟨hm1, hm2⟩
              · exact Or.inl h1
              · exact Or.inr ⟨List.mem_cons_of_mem v hm1, hm2⟩
            · intro w hw hws
              rcases List.mem_cons.mp hw with rfl | hw2
              · exact Batteries.TransCmp.le_trans hgt h0m
              · exact h2 w hw2 hws
            · intro m1 hm1
              injection hm1 with he
              subst he
              exact h0m

theorem maxSatisfying_some (sat : SemVer → String → Bool)
    (vs : List SemVer) (range : String) (m : SemVer)
    (h : ToolsGetter.maxSatisfying sat vs range = some m) :
    m ∈ vs ∧ sat m range = true ∧
      ∀ w ∈ vs, sat w range = true → SemVer.cmp w m ≠ .gt := by
  obtain ⟨h1, h2, _⟩ := (maxSat_aux sat range vs none).2 m h
  rcases h1 with h1 | ⟨hm1, hm2⟩
  · cases h1
  · exact ⟨hm1, hm2, h2⟩

theorem maxSatisfying_all_false (sat : SemVer → String → Bool)
    (range : String) :
    ∀ (vs : List SemVer) (acc : Option SemVer),
      (∀ w ∈ vs, sat w range = false) →
      vs.foldl (ToolsGetter.maxSatStep sat range) acc = acc := by
  intro vs
  induction vs with
  | nil =>
    intro acc _
    rfl
  | cons v vs ih =>
    intro acc h
    have hv : sat v range = false := h v (List.mem_cons_self v vs)
    have hstep : ToolsGetter.maxSatStep sat range acc v = acc := by
      simp [ToolsGetter.maxSatStep, hv]
    rw [List.foldl_cons, hstep]
    exact ih acc (fun w hw => h w (List.mem_cons_of_mem v hw))

/-! ## Claim C3 -/

/-- C3: version resolution is two-phase with first match winning.  When the
requested token is a catalog key whose entry holds an artifact for the
target platform, `matchRange` returns the token unchanged — for every range
oracle, so no range search influences the result.  Otherwise the token is
treated as a range: any successful resolution is the render of a version
that is drawn from the catalog keys parsing as strict semantic versions,
satisfies the range, and is maximal in the semver order among the parsed
keys satisfying it. -/
theorem C3_two_phase_resolution (strictParse : String → Option SemVer)
    (sat : SemVer → String → Bool) (platform arch : String)
    (theCatalog : List (String × PlatMap)) (range : String) :
    (∀ pm pkg, theCatalog.lookup range = some pm →
      pm (getArchitecturePlatform platform arch) = some pkg →
      ToolsGetter.matchRange strictParse sat platform arch theCatalog range =
        .ok range) ∧
    ((theCatalog.lookup range = none ∨
      ∃ pm, theCatalog.lookup range = some pm ∧
        pm (getArchitecturePlatform platform arch) = none) →
      ∀ r, ToolsGetter.matchRange strictParse sat platform arch theCatalog
          range = .ok r →
      ∃ m, r = SemVer.render m ∧
        m ∈ (theCatalog.map Prod.fst).filterMap strictParse ∧
        sat m range = true ∧
        ∀ w ∈ (theCatalog.map Prod.fst).filterMap strictParse,
          sat w range = true → SemVer.cmp w m ≠ .gt) := by
  constructor
  · intro pm pkg hlk hpk
    unfold ToolsGetter.matchRange
    simp [hlk, hpk]
  · intro hfail r hr
    have hr2 : (match ToolsGetter.maxSatisfying sat
        ((theCatalog.map Prod.fst).filterMap strictParse) range with
      | some m => Except.ok (SemVer.render m)
      | none => Except.error (ToolsGetter.notFoundMessage range)) =
        Except.ok r := by
      unfold ToolsGetter.matchRange at hr
      rcases hfail with h | ⟨pm, h1, h2⟩
      · simpa [h] using hr
      · simpa [h1, h2] using hr
    cases hms : ToolsGetter.maxSatisfying sat
        ((theCatalog.map Prod.fst).filterMap strictParse) range with
    | none =>
      rw [hms] at hr2
      cases hr2
    | some m =>
      rw [hms] at hr2
      injection hr2 with he
      obtain ⟨hm1, hm2, hm3⟩ := maxSatisfying_some sat _ range m hms
      exact ⟨m, he.symm, hm1, hm2, hm3⟩

/-- C3 witness: on the concrete catalog with keys "2.0.0" and "2.1.0" (both
holding a linux artifact), resolving the token "2.0.0" returns it unchanged,
and resolving the range token "^2.0.0" yields the maximum satisfying
version 2.1.0, with the stated maximality properties. -/
theorem C3_witness :
    sampleCatalog.lookup "2.0.0" = some sampleLinuxMap ∧
      sampleLinuxMap (getArchitecturePlatform "linux" "x64") =
        some samplePkg ∧
      ToolsGetter.matchRange strictSampleParse sampleSat "linux" "x64"
        sampleCatalog "2.0.0" = .ok "2.0.0" ∧
      sampleCatalog.lookup "^2.0.0" = none ∧
      ToolsGetter.matchRange strictSampleParse sampleSat "linux" "x64"
        sampleCatalog "^2.0.0" = .ok "2.1.0" ∧
      ∃ m, ("2.1.0" : String) = SemVer.render m ∧
        m ∈ (sampleCatalog.map Prod.fst).filterMap strictSampleParse ∧
        sampleSat m "^2.0.0" = true ∧
        ∀ w ∈ (sampleCatalog.map Prod.fst).filterMap strictSampleParse,
          sampleSat w "^2.0.0" = true → SemVer.cmp w m ≠ .gt := by
  refine ⟨rfl, rfl, ?_, rfl, rfl, ?_⟩
  · exact (C3_two_phase_resolution strictSampleParse sampleSat "linux" "x64"
      sampleCatalog "2.0.0").1 sampleLinuxMap samplePkg rfl rfl
  · exact (C3_two_phase_resolution strictSampleParse sampleSat "linux" "x64"
      sampleCatalog "^2.0.0").2 (Or.inl rfl) "2.1.0" rfl

/-! ## Claim C4 -/

/-- C4: when the exact or alias lookup fails and no catalog key parsing as a
strict semantic version satisfies the token as a range, resolution fails
with the not-found error naming the requested token — never a partial or
best-effort result. -/
theorem C4_resolution_failure (strictParse : String → Option SemVer)
    (sat : SemVer → String → Bool) (platform arch : String)
    (theCatalog : List (String × PlatMap)) (range : String)
    (hfail : theCatalog.lookup range = none ∨
      ∃ pm, theCatalog.lookup range = some pm ∧
        pm (getArchitecturePlatform platform arch) = none)
    (hnone : ∀ w ∈ (theCatalog.map Prod.fst).filterMap strictParse,
      sat w range = false) :
    ToolsGetter.matchRange strictParse sat platform arch theCatalog range =
        .error (ToolsGetter.notFoundMessage range) ∧
      ∃ p1 p2, ToolsGetter.notFoundMessage range = p1 ++ range ++ p2 := by
  have hms : ToolsGetter.maxSatisfying sat
      ((theCatalog.map Prod.fst).filterMap strictParse) range = none :=
    maxSatisfying_all_false sat range _ none hnone
  have hgoal : (match ToolsGetter.maxSatisfying sat
      ((theCatalog.map Prod.fst).filterMap strictParse) range with
    | some m => Except.ok (SemVer.render m)
    | none => Except.error (ToolsGetter.notFoundMessage range)) =
      Except.error (ToolsGetter.notFoundMessage range) := by
    rw [hms]
  constructor
  · unfold ToolsGetter.matchRange
    rcases hfail with h | ⟨pm, h1, h2⟩
    · simpa [h] using hgoal
    · simpa [h1, h2] using hgoal
  · exact ⟨"Cannot match \x27",
      "\x27 with any version in the catalog for llvm.", rfl⟩

/-- C4 witness: resolving the token "9.0.0", which is neither a key of the
concrete catalog nor satisfied by any of its parsed keys, fails with the
not-found error naming the token. -/
theorem C4_witness :
    sampleCatalog.lookup "9.0.0" = none ∧
      (∀ w ∈ (sampleCatalog.map Prod.fst).filterMap strictSampleParse,
        sampleSat w "9.0.0" = false) ∧
      (ToolsGetter.matchRange strictSampleParse sampleSat "linux" "x64"
          sampleCatalog "9.0.0" =
        .error (ToolsGetter.notFoundMessage "9.0.0") ∧
      ∃ p1 p2, ToolsGetter.notFoundMessage "9.0.0" =
        p1 ++ "9.0.0" ++ p2) := by
  refine ⟨rfl, by decide, ?_⟩
  exact C4_resolution_failure strictSampleParse sampleSat "linux" "x64"
    sampleCatalog "9.0.0" (Or.inl rfl) (by decide)

/-! ## Claims C2 and C9 -/

theorem convertHash_eq (h : Int) :
    ToolsGetter.convertHashToFakeSemver h =
      toString h.natAbs ++ (if h > 0 then ".0.0" else ".0.1") := rfl

theorem append_suffix_ne (s : String) : s ++ ".0.0" ≠ s ++ ".0.1" := by
  intro he
  have hd : (s ++ ".0.0").data = (s ++ ".0.1").data := by rw [he]
  rw [String.data_append, String.data_append] at hd
  have h1 := List.append_cancel_left hd
  have h2 : (".0.0" : String).data ≠ (".0.1" : String).data := by decide
  exact h2 h1

/-- C2 counterexample: the claim maps every non-negative hash, zero
included, to the ".0.0" suffix, but the code tests strict positivity, so
the hash 0 is encoded "0.0.1" and not "0.0.0". -/
theorem C2_counterexample :
    ToolsGetter.convertHashToFakeSemver 0 = "0.0.1" ∧
      ToolsGetter.convertHashToFakeSemver 0 ≠ "0.0.0" := by
  refine ⟨rfl, ?_⟩
  intro he
  have hd : ("0.0.1" : String).data = ("0.0.0" : String).data := by
    rw [← he]
    rfl
  revert hd
  decide

/-- C2 (amended: the ".0.0" suffix is used exactly for strictly positive
hashes, and the ".0.1" suffix for zero and negative hashes): for every
integer hash value, the fake-semver encoding is the decimal rendering of
its absolute value followed by ".0.0" when the hash is positive and by
".0.1" when it is zero or negative. -/
theorem C2_fake_semver_encoding (h : Int) :
    (0 < h → ToolsGetter.convertHashToFakeSemver h =
      toString h.natAbs ++ ".0.0") ∧
    (h ≤ 0 → ToolsGetter.convertHashToFakeSemver h =
      toString h.natAbs ++ ".0.1") := by
  constructor
  · intro hp
    rw [convertHash_eq, if_pos hp]
  · intro hn
    rw [convertHash_eq, if_neg (by omega)]

/-- C2 witness: the hash 5 is encoded "5.0.0" and the hash -3 is encoded
"3.0.1". -/
theorem C2_witness :
    ((0 : Int) < 5 ∧ ToolsGetter.convertHashToFakeSemver 5 =
      toString (5 : Int).natAbs ++ ".0.0") ∧
    ((-3 : Int) ≤ 0 ∧ ToolsGetter.convertHashToFakeSemver (-3) =
      toString (-3 : Int).natAbs ++ ".0.1") :=
  ⟨⟨by decide, (C2_fake_semver_encoding 5).1 (by decide)⟩,
   ⟨by decide, (C2_fake_semver_encoding (-3)).2 (by decide)⟩⟩

/-- C9 counterexample: the claim asserts distinct encodings for every hash
and its negation, but the hash 0 is its own negation, so the two encodings
are the same string. -/
theorem C9_counterexample :
    ToolsGetter.convertHashToFakeSemver 0 =
      ToolsGetter.convertHashToFakeSemver (-(0 : Int)) := rfl

/-- C9 (amended: restricted to nonzero hashes): for every nonzero integer
hash value, the fake-semver encodings of the hash and of its negation are
distinct strings — the magnitudes agree but the patch component
disambiguates the sign. -/
theorem C9_sign_safety (h : Int) (hne : h ≠ 0) :
    ToolsGetter.convertHashToFakeSemver h ≠
      ToolsGetter.convertHashToFakeSemver (-h) := by
  rw [convertHash_eq, convertHash_eq, Int.natAbs_neg]
  rcases lt_or_gt_of_ne hne with hlt | hgt
  · rw [if_neg (by omega), if_pos (by omega)]
    exact Ne.symm (append_suffix_ne _)
  · rw [if_pos hgt, if_neg (by omega)]
    exact append_suffix_ne _

/-- C9 witness: the encodings of 7 and -7 differ. -/
theorem C9_witness :
    (7 : Int) ≠ 0 ∧
      ToolsGetter.convertHashToFakeSemver 7 ≠
        ToolsGetter.convertHashToFakeSemver (-7) :=
  ⟨by decide, C9_sign_safety 7 (by decide)⟩

/-! ## Claim C10 -/

/-- C10: the canonical archive filename is independent of the architecture
argument of `getArchiveFileName` — for a fixed version, platform, build type
and ambient process architecture, two calls differing only in the
architecture argument return the same result, because the architecture
component of the name is switched on the ambient process architecture. -/
theorem C10_architecture_argument_ignored (version platform : String)
    (buildType : BuildType) (processArch : String) (a1 a2 : String) :
    getArchiveFileName version platform a1 buildType processArch =
      getArchiveFileName version platform a2 buildType processArch := rfl

/-! ## Claim C5 -/

/-- C5: in every orchestrator run with both cache tiers enabled that gets
past configuration (archive name computed, scratch root present), the very
first tier operation is the local-tier check, so the local check happens
before any remote check; and on a local-tier hit the whole run performs
exactly that one local check — in particular neither a remote restore nor a
remote save is ever performed. -/
theorem C5_local_tier_precedence (i : ToolsGetter.GetInputs)
    (hl : i.useLocalCache = true) (hc : i.useCloudCache = true)
    (ha : ∃ af, getArchiveFileName i.llvmVersion i.processPlatform
      i.processArch i.buildType i.processArch = .ok af)
    (hr : ∃ d, i.runnerTemp = some d) :
    ((ToolsGetter.get i).1.head? = some ToolsGetter.Event.localCheck) ∧
    (i.localFindResult ≠ "" →
      (ToolsGetter.get i).1 = [ToolsGetter.Event.localCheck] ∧
      ToolsGetter.Event.remoteCheck ∉ (ToolsGetter.get i).1 ∧
      ToolsGetter.Event.remoteSave ∉ (ToolsGetter.get i).1) := by
  obtain ⟨af, haf⟩ := ha
  obtain ⟨d, hrd⟩ := hr
  constructor
  · cases hb : i.localFindResult == "" with
    | true =>
      cases hcr : i.cloudRestoreResult with
      | some k => simp [ToolsGetter.get, haf, hrd, hl, hc, hb, hcr]
      | none =>
        cases hso : i.remoteSaveOutcome with
        | ok id =>
          simp [ToolsGetter.get, haf, hrd, hl, hc, hb, hcr, hso,
            ToolsGetter.saveCache]
        | error e =>
          by_cases hv : e.name = "ValidationError"
          · simp [ToolsGetter.get, haf, hrd, hl, hc, hb, hcr, hso,
              ToolsGetter.saveCache, hv]
          · by_cases hrc : e.name = "ReserveCacheError" <;>
              simp [ToolsGetter.get, haf, hrd, hl, hc, hb, hcr, hso,
                ToolsGetter.saveCache, hv, hrc]
    | false => simp [ToolsGetter.get, haf, hrd, hl, hc, hb]
  · intro hlf
    have hb : (i.localFindResult == "") = false := by simp [hlf]
    refine ⟨?_, ?_, ?_⟩ <;> simp [ToolsGetter.get, haf, hrd, hl, hc, hb]

/-- C5 witness: a concrete both-tiers-enabled run with a local hit performs
exactly the local check and no remote operation. -/
theorem C5_witness :
    hitInputs.useLocalCache = true ∧ hitInputs.useCloudCache = true ∧
      hitInputs.runnerTemp = some "/tmp" ∧
      hitInputs.localFindResult ≠ "" ∧
      (ToolsGetter.get hitInputs).1.head? =
        some ToolsGetter.Event.localCheck ∧
      (ToolsGetter.get hitInputs).1 = [ToolsGetter.Event.localCheck] := by
  refine ⟨rfl, rfl, rfl, by decide, ?_, ?_⟩
  · exact (C5_local_tier_precedence hitInputs rfl rfl ⟨_, rfl⟩
      ⟨"/tmp", rfl⟩).1
  · exact ((C5_local_tier_precedence hitInputs rfl rfl ⟨_, rfl⟩
      ⟨"/tmp", rfl⟩).2 (by decide)).1

/-! ## Claim C6 -/

/-- C6: in every orchestrator run that gets past configuration, in which no
enabled tier hits, and that completes successfully, the performed operations
are exactly: the enabled tier checks, then one download-and-extract, then
one remote save when the remote tier is enabled, then one local save when
the local tier is enabled; in particular the download occurs exactly once
and each enabled save exactly once. -/
theorem C6_exactly_once_population (i : ToolsGetter.GetInputs)
    (ha : ∃ af, getArchiveFileName i.llvmVersion i.processPlatform
      i.processArch i.buildType i.processArch = .ok af)
    (hr : ∃ d, i.runnerTemp = some d)
    (hlm : i.useLocalCache = true → i.localFindResult = "")
    (hcm : i.useCloudCache = true → i.cloudRestoreResult = none)
    (hok : (ToolsGetter.get i).2 = .ok ()) :
    ((ToolsGetter.get i).1 =
      (if i.useLocalCache = true then [ToolsGetter.Event.localCheck]
        else []) ++
      (if i.useCloudCache = true then [ToolsGetter.Event.remoteCheck]
        else []) ++
      [ToolsGetter.Event.download] ++
      (if i.useCloudCache = true then [ToolsGetter.Event.remoteSave]
        else []) ++
      (if i.useLocalCache = true then [ToolsGetter.Event.localSave]
        else [])) ∧
    ((ToolsGetter.get i).1.count ToolsGetter.Event.download = 1) ∧
    ((ToolsGetter.get i).1.count ToolsGetter.Event.remoteSave =
      if i.useCloudCache = true then 1 else 0) ∧
    ((ToolsGetter.get i).1.count ToolsGetter.Event.localSave =
      if i.useLocalCache = true then 1 else 0) := by
  obtain ⟨af, haf⟩ := ha
  obtain ⟨d, hrd⟩ := hr
  cases hl : i.useLocalCache <;> cases hc : i.useCloudCache
  · have h1 : (ToolsGetter.get i).1 = [ToolsGetter.Event.download] := by
      simp [ToolsGetter.get, haf, hrd, hl, hc]
    refine ⟨?_, ?_, ?_, ?_⟩ <;> rw [h1] <;> decide
  · have hcr : i.cloudRestoreResult = none := hcm hc
    cases hso : i.remoteSaveOutcome with
    | ok id =>
      have h1 : (ToolsGetter.get i).1 = [ToolsGetter.Event.remoteCheck,
          ToolsGetter.Event.download, ToolsGetter.Event.remoteSave] := by
        simp [ToolsGetter.get, haf, hrd, hl, hc, hcr, hso,
          ToolsGetter.saveCache]
      refine ⟨?_, ?_, ?_, ?_⟩ <;> rw [h1] <;> decide
    | error e =>
      by_cases hv : e.name = "ValidationError"
      · exfalso
        have h2 : (ToolsGetter.get i).2 = .error e := by
          simp [ToolsGetter.get, haf, hrd, hl, hc, hcr, hso,
            ToolsGetter.saveCache, hv]
        rw [h2] at hok
        cases hok
      · have h1 : (ToolsGetter.get i).1 = [ToolsGetter.Event.remoteCheck,
            ToolsGetter.Event.download, ToolsGetter.Event.remoteSave] := by
          by_cases hrc : e.name = "ReserveCacheError" <;>
            simp [ToolsGetter.get, haf, hrd, hl, hc, hcr, hso,
              ToolsGetter.saveCache, hv, hrc]
        refine ⟨?_, ?_, ?_, ?_⟩ <;> rw [h1] <;> decide
  · have hlf : i.localFindResult = "" := hlm hl
    have h1 : (ToolsGetter.get i).1 = [ToolsGetter.Event.localCheck,
        ToolsGetter.Event.download, ToolsGetter.Event.localSave] := by
      simp [ToolsGetter.get, haf, hrd, hl, hc, hlf]
    refine ⟨?_, ?_, ?_, ?_⟩ <;> rw [h1] <;> decide
  · have hlf : i.localFindResult = "" := hlm hl
    have hcr : i.cloudRestoreResult = none := hcm hc
    cases hso : i.remoteSaveOutcome with
    | ok id =>
      have h1 : (ToolsGetter.get i).1 = [ToolsGetter.Event.localCheck,
          ToolsGetter.Event.remoteCheck, ToolsGetter.Event.download,
          ToolsGetter.Event.remoteSave, ToolsGetter.Event.localSave] := by
        simp [ToolsGetter.get, haf, hrd, hl, hc, hlf, hcr, hso,
          ToolsGetter.saveCache]
      refine ⟨?_, ?_, ?_, ?_⟩ <;> rw [h1] <;> decide
    | error e =>
      by_cases hv : e.name = "ValidationError"
      · exfalso
        have h2 : (ToolsGetter.get i).2 = .error e := by
          simp [ToolsGetter.get, haf, hrd, hl, hc, hlf, hcr, hso,
            ToolsGetter.saveCache, hv]
        rw [h2] at hok
        cases hok
      · have h1 : (ToolsGetter.get i).1 = [ToolsGetter.Event.localCheck,
            ToolsGetter.Event.remoteCheck, ToolsGetter.Event.download,
            ToolsGetter.Event.remoteSave, ToolsGetter.Event.localSave] := by
          by_cases hrc : e.name = "ReserveCacheError" <;>
            simp [ToolsGetter.get, haf, hrd, hl, hc, hlf, hcr, hso,
              ToolsGetter.saveCache, hv, hrc]
        refine ⟨?_, ?_, ?_, ?_⟩ <;> rw [h1] <;> decide

/-- C6 witness: a concrete both-tiers-enabled full-miss run performs local
check, remote check, one download, one remote save and one local save, in
that order. -/
theorem C6_witness :
    (missInputs.useLocalCache = true → missInputs.localFindResult = "") ∧
    (missInputs.useCloudCache = true → missInputs.cloudRestoreResult =
      none) ∧
    (ToolsGetter.get missInputs).2 = .ok () ∧
    (ToolsGetter.get missInputs).1.count ToolsGetter.Event.download = 1 := by
  refine ⟨fun _ => rfl, fun _ => rfl, rfl, ?_⟩
  exact (C6_exactly_once_population missInputs ⟨_, rfl⟩ ⟨"/tmp", rfl⟩
    (fun _ => rfl) (fun _ => rfl) rfl).2.1

/-! ## Claim C8 -/

/-- C8: for a remote-tier save attempt (remote tier enabled, no tier hit),
a rejection named ValidationError is rethrown and aborts the run; a
rejection named ReserveCacheError is logged at info level and the run
completes successfully, still performing the local save when the local tier
is enabled; any other rejection is logged as a warning and likewise leaves
the run to continue as if no save occurred. -/
theorem C8_remote_save_error_policy (i : ToolsGetter.GetInputs)
    (e : ToolsGetter.JsError)
    (ha : ∃ af, getArchiveFileName i.llvmVersion i.processPlatform
      i.processArch i.buildType i.processArch = .ok af)
    (hr : ∃ d, i.runnerTemp = some d)
    (hc : i.useCloudCache = true)
    (hlm : i.useLocalCache = true → i.localFindResult = "")
    (hcm : i.cloudRestoreResult = none)
    (hso : i.remoteSaveOutcome = .error e) :
    (e.name = "ValidationError" →
      ToolsGetter.saveCache (.error e) = (.error e, []) ∧
      (ToolsGetter.get i).2 = .error e) ∧
    (e.name = "ReserveCacheError" →
      ToolsGetter.saveCache (.error e) =
        (.ok none, [ToolsGetter.LogEvent.info e.message]) ∧
      (ToolsGetter.get i).2 = .ok () ∧
      (i.useLocalCache = true →
        ToolsGetter.Event.localSave ∈ (ToolsGetter.get i).1)) ∧
    (e.name ≠ "ValidationError" → e.name ≠ "ReserveCacheError" →
      ToolsGetter.saveCache (.error e) =
        (.ok none, [ToolsGetter.LogEvent.warning e.message]) ∧
      (ToolsGetter.get i).2 = .ok () ∧
      (i.useLocalCache = true →
        ToolsGetter.Event.localSave ∈ (ToolsGetter.get i).1)) := by
  obtain ⟨af, haf⟩ := ha
  obtain ⟨d, hrd⟩ := hr
  refine ⟨?_, ?_, ?_⟩
  · intro hv
    constructor
    · simp [ToolsGetter.saveCache, hv]
    · cases hl : i.useLocalCache
      · simp [ToolsGetter.get, haf, hrd, hl, hc, hcm, hso,
          ToolsGetter.saveCache, hv]
      · have hlf : i.localFindResult = "" := hlm hl
        simp [ToolsGetter.get, haf, hrd, hl, hc, hlf, hcm, hso,
          ToolsGetter.saveCache, hv]
  · intro hrc
    have hv : e.name ≠ "ValidationError" := by
      rw [hrc]
      decide
    refine ⟨by simp [ToolsGetter.saveCache, hv, hrc], ?_, ?_⟩
    · cases hl : i.useLocalCache
      · simp [ToolsGetter.get, haf, hrd, hl, hc, hcm, hso,
          ToolsGetter.saveCache, hv, hrc]
      · have hlf : i.localFindResult = "" := hlm hl
        simp [ToolsGetter.get, haf, hrd, hl, hc, hlf, hcm, hso,
          ToolsGetter.saveCache, hv, hrc]
    · intro hl
      have hlf : i.localFindResult = "" := hlm hl
      simp [ToolsGetter.get, haf, hrd, hl, hc, hlf, hcm, hso,
        ToolsGetter.saveCache, hv, hrc]
  · intro hv hrc
    refine ⟨by simp [ToolsGetter.saveCache, hv, hrc], ?_, ?_⟩
    · cases hl : i.useLocalCache
      · simp [ToolsGetter.get, haf, hrd, hl, hc, hcm, hso,
          ToolsGetter.saveCache, hv, hrc]
      · have hlf : i.localFindResult = "" := hlm hl
        simp [ToolsGetter.get, haf, hrd, hl, hc, hlf, hcm, hso,
          ToolsGetter.saveCache, hv, hrc]
    · intro hl
      have hlf : i.localFindResult = "" := hlm hl
      simp [ToolsGetter.get, haf, hrd, hl, hc, hlf, hcm, hso,
        ToolsGetter.saveCache, hv, hrc]

/-- C8 witness: with a concrete full-miss run, a ValidationError rejection
aborts the run, a ReserveCacheError rejection is absorbed with the local
save still performed, and an unrelated rejection is absorbed likewise. -/
theorem C8_witness :
    ((⟨"ValidationError", "bad request"⟩ : ToolsGetter.JsError).name =
      "ValidationError" ∧
      (ToolsGetter.get (saveErrInputs ⟨"ValidationError", "bad request"⟩)).2 =
        .error ⟨"ValidationError", "bad request"⟩) ∧
    ((⟨"ReserveCacheError", "taken"⟩ : ToolsGetter.JsError).name =
      "ReserveCacheError" ∧
      (ToolsGetter.get (saveErrInputs ⟨"ReserveCacheError", "taken"⟩)).2 =
        .ok () ∧
      ToolsGetter.Event.localSave ∈
        (ToolsGetter.get (saveErrInputs ⟨"ReserveCacheError", "taken"⟩)).1) ∧
    ((⟨"HttpError", "503"⟩ : ToolsGetter.JsError).name ≠ "ValidationError" ∧
      (ToolsGetter.get (saveErrInputs ⟨"HttpError", "503"⟩)).2 = .ok () ∧
      ToolsGetter.Event.localSave ∈
        (ToolsGetter.get (saveErrInputs ⟨"HttpError", "503"⟩)).1) := by
  refine ⟨⟨rfl, ?_⟩, ⟨rfl, ?_, ?_⟩, ⟨by decide, ?_, ?_⟩⟩
  · exact ((C8_remote_save_error_policy
      (saveErrInputs ⟨"ValidationError", "bad request"⟩)
      ⟨"ValidationError", "bad request"⟩ ⟨_, rfl⟩ ⟨"/tmp", rfl⟩ rfl
      (fun _ => rfl) rfl rfl).1 rfl).2
  · exact ((C8_remote_save_error_policy
      (saveErrInputs ⟨"ReserveCacheError", "taken"⟩)
      ⟨"ReserveCacheError", "taken"⟩ ⟨_, rfl⟩ ⟨"/tmp", rfl⟩ rfl
      (fun _ => rfl) rfl rfl).2.1 rfl).2.1
  · exact ((C8_remote_save_error_policy
      (saveErrInputs ⟨"ReserveCacheError", "taken"⟩)
      ⟨"ReserveCacheError", "taken"⟩ ⟨_, rfl⟩ ⟨"/tmp", rfl⟩ rfl
      (fun _ => rfl) rfl rfl).2.1 rfl).2.2 rfl
  · exact ((C8_remote_save_error_policy
      (saveErrInputs ⟨"HttpError", "503"⟩)
      ⟨"HttpError", "503"⟩ ⟨_, rfl⟩ ⟨"/tmp", rfl⟩ rfl
      (fun _ => rfl) rfl rfl).2.2 (by decide) (by decide)).2.1
  · exact ((C8_remote_save_error_policy
      (saveErrInputs ⟨"HttpError", "503"⟩)
      ⟨"HttpError", "503"⟩ ⟨_, rfl⟩ ⟨"/tmp", rfl⟩ rfl
      (fun _ => rfl) rfl rfl).2.2 (by decide) (by decide)).2.2 rfl

end GetLlvm
